import Mathlib

/-!
Verification of the threshold-based flow funding engines of the
post-app-website repository.

The development shallowly embeds three modules over exact rationals:

* lib/flow-funding/engine.ts  (discrete distribution engine) - namespace FlowFunding
* lib/flow-funding/targeted.ts (targeted distribution entry point) - namespace FlowFunding
* lib/tbff/algorithms.ts and lib/tbff/utils.ts (tbff initial distribution) - namespace TBFF
* lib/flow-v2/engine-v2.ts (continuous equilibrium engine) - namespace FlowV2

JavaScript Map objects are rendered as association lists in insertion
order; in-place mutation of account objects is rendered as explicit state
passing of the account list.  Floating point numbers are rendered as
rationals, so every arithmetic identity below is exact.
-/

namespace FlowFunding

/-- An account of the discrete engine (lib/flow-funding/types.ts).
The allocations Map is kept as an association list in insertion order. -/
structure Account where
  id : String
  name : String
  balance : ℚ
  minThreshold : ℚ
  maxThreshold : ℚ
  allocations : List (String × ℚ)
deriving Repr, DecidableEq

/-- The fatal validation findings pushed by validateNetwork, one constructor
per push site, in the order the source pushes them.  The formatted message
strings of the source carry no information beyond the ids involved. -/
inductive VError where
  | emptyNetwork
  | negativeMinThreshold (id : String)
  | negativeMaxThreshold (id : String)
  | minExceedsMax (id : String)
  | negativeBalance (id : String)
  | allocationOutOfRange (id target : String)
  | missingTarget (id target : String)
  | selfAllocation (id : String)
  | allocationSumExceeded (id : String)
deriving Repr, DecidableEq

/-- The non-fatal findings of validateNetwork. -/
inductive VWarning where
  | noOutgoingAllocations (id : String)
  | neverReceives (id : String)
deriving Repr, DecidableEq

structure ValidationResult where
  valid : Bool
  errors : List VError
  warnings : List VWarning
deriving Repr, DecidableEq

/-- Sum of the outgoing allocation percentages of an account
(the totalAllocation accumulator of the source). -/
def weightSum (a : Account) : ℚ :=
  (a.allocations.map Prod.snd).sum

/-- The fatal findings validateNetwork records for one account, in source
order: thresholds, balance, per-allocation checks, then the sum check. -/
def accountErrors (ids : List String) (a : Account) : List VError :=
  (if a.minThreshold < 0 then [VError.negativeMinThreshold a.id] else []) ++
  (if a.maxThreshold < 0 then [VError.negativeMaxThreshold a.id] else []) ++
  (if a.minThreshold > a.maxThreshold then [VError.minExceedsMax a.id] else []) ++
  (if a.balance < 0 then [VError.negativeBalance a.id] else []) ++
  (a.allocations.map (fun p =>
    (if p.2 < 0 ∨ p.2 > 100 then [VError.allocationOutOfRange a.id p.1] else []) ++
    (if ids.contains p.1 then [] else [VError.missingTarget a.id p.1]) ++
    (if p.1 = a.id then [VError.selfAllocation a.id] else []))).flatten ++
  (if weightSum a > 10001 / 100 then [VError.allocationSumExceeded a.id] else [])

/-- The warnings validateNetwork records for one account. -/
def accountWarnings (accounts : List Account) (a : Account) : List VWarning :=
  (if a.allocations.isEmpty ∧ accounts.length > 1 then
    [VWarning.noOutgoingAllocations a.id] else []) ++
  (if (¬ accounts.any (fun b => b.allocations.any (fun p => p.1 = a.id))) ∧ a.balance = 0 then
    [VWarning.neverReceives a.id] else [])

/-- validateNetwork of lib/flow-funding/engine.ts.  It always returns a
structured result and never raises. -/
def validateNetwork (accounts : List Account) : ValidationResult :=
  if accounts.isEmpty then
    { valid := false, errors := [VError.emptyNetwork], warnings := [] }
  else
    let ids := accounts.map (fun a => a.id)
    let errors := (accounts.map (accountErrors ids)).flatten
    let warnings := (accounts.map (accountWarnings accounts)).flatten
    { valid := errors.isEmpty, errors := errors, warnings := warnings }

/-- Shortfall below the minimum threshold; the source stores only the
positive shortfalls in a Map and reads them back with a get-or-zero, which
for the unique account ids of a network equals this recomputation. -/
def shortfallOf (a : Account) : ℚ := max 0 (a.minThreshold - a.balance)

/-- The totalMinRequired accumulator of distributeInitial. -/
def totalShortfall (accounts : List Account) : ℚ :=
  (accounts.map shortfallOf).sum

/-- Step 1 of the sufficient-funds branch: every shortfalled account is set
exactly to its minimum threshold. -/
def fillMinimums (accounts : List Account) : List Account :=
  accounts.map (fun a =>
    if shortfallOf a > 0 then { a with balance := a.minThreshold } else a)

/-- Remaining capacity below the maximum threshold. -/
def capacityOf (a : Account) : ℚ := max 0 (a.maxThreshold - a.balance)

/-- The totalCapacity accumulator of distributeInitial. -/
def totalCapacity (accounts : List Account) : ℚ :=
  (accounts.map capacityOf).sum

/-- distributeInitial of lib/flow-funding/engine.ts (Phase 1).  Note that in
the zero-remaining-capacity case the source logs and returns, leaving the
remainder undistributed. -/
def distributeInitial (accounts : List Account) (funding : ℚ) : List Account :=
  let totalMinRequired := totalShortfall accounts
  if funding < totalMinRequired then
    accounts.map (fun a =>
      if shortfallOf a > 0 then
        { a with balance := a.balance + shortfallOf a / totalMinRequired * funding }
      else a)
  else
    let filled := fillMinimums accounts
    let remaining := funding - totalMinRequired
    if remaining ≤ 0 then filled
    else
      let totalCap := totalCapacity filled
      if totalCap = 0 then filled
      else
        filled.map (fun a =>
          if capacityOf a > 0 then
            { a with balance := a.balance + capacityOf a / totalCap * remaining }
          else a)

/-- One account of the clamping pass of calculateOverflow: a balance above
the maximum threshold is set to the maximum. -/
def clampToMax (a : Account) : Account :=
  if max 0 (a.balance - a.maxThreshold) > 0 then { a with balance := a.maxThreshold } else a

/-- The overflow Map built by calculateOverflow: only the strictly positive
overflows, in account order. -/
def overflowEntries (accounts : List Account) : List (String × ℚ) :=
  accounts.filterMap (fun a =>
    let o := max 0 (a.balance - a.maxThreshold)
    if o > 0 then some (a.id, o) else none)

/-- calculateOverflow of lib/flow-funding/engine.ts: clamps every
overflowing balance to the maximum and returns the overflow map. -/
def calculateOverflow (accounts : List Account) : List Account × List (String × ℚ) :=
  (accounts.map clampToMax, overflowEntries accounts)

/-- The in-place target.balance += amount of the source, rendered as a map
over the account list.  With unique account ids this touches exactly the
account the accountMap of the source resolves. -/
def addToBalance (accounts : List Account) (targetId : String) (amount : ℚ) : List Account :=
  accounts.map (fun a =>
    if a.id = targetId then { a with balance := a.balance + amount } else a)

/-- The accountMap.get of the source (for unique ids the Map holds each
account exactly once, the first and only match of the list). -/
def findAccount (accounts : List Account) (id : String) : Option Account :=
  accounts.find? (fun a => a.id = id)

/-- The inner loop of redistributeOverflow for one overflowing source:
each allocation whose target resolves receives its normalized share, and a
flow entry keyed source->target is recorded. -/
def distributeToTargets (sourceId : String) (overflow totalAllocation : ℚ)
    (allocs : List (String × ℚ)) (st : List Account × List (String × ℚ)) :
    List Account × List (String × ℚ) :=
  allocs.foldl (fun st p =>
    if (findAccount st.1 p.1).isSome then
      let amount := overflow * (p.2 / totalAllocation)
      (addToBalance st.1 p.1 amount, st.2 ++ [(sourceId ++ "->" ++ p.1, amount)])
    else st) st

/-- The body of the outer redistribution loop for one overflow entry: the
source is resolved, a zero total allocation loses the overflow, otherwise
the overflow is shared among the allocation targets. -/
def redistributeStep (st : List Account × List (String × ℚ)) (q : String × ℚ) :
    List Account × List (String × ℚ) :=
  match findAccount st.1 q.1 with
  | none => st
  | some source =>
    let totalAllocation := weightSum source
    if totalAllocation = 0 then st
    else distributeToTargets q.1 q.2 totalAllocation source.allocations st

/-- redistributeOverflow of lib/flow-funding/engine.ts.  A source with zero
total allocation is skipped, so its overflow is lost by design. -/
def redistributeOverflow (accounts : List Account) (overflows : List (String × ℚ)) :
    List Account × List (String × ℚ) :=
  overflows.foldl redistributeStep (accounts, [])

/-- One recorded round of the Phase B loop (IterationResult of types.ts). -/
structure IterationResult where
  iteration : ℕ
  balances : List (String × ℚ)
  overflows : List (String × ℚ)
  totalOverflow : ℚ
  flows : List (String × ℚ)
  converged : Bool
deriving Repr, DecidableEq

/-- Balance snapshot in account order (the new Map(accounts.map(...)) of
the source). -/
def balancesOf (accounts : List Account) : List (String × ℚ) :=
  accounts.map (fun a => (a.id, a.balance))

/-- The Phase B loop of runDistribution, with the remaining iteration
budget as fuel and the current iteration index threaded.  Returns the final
accounts, the recorded iterations in order, and the converged flag. -/
def runLoop (eps : ℚ) : ℕ → ℕ → List Account →
    List Account × List IterationResult × Bool
  | 0, _, accounts => (accounts, [], false)
  | fuel + 1, i, accounts =>
    let clamped := (calculateOverflow accounts).1
    let overflows := (calculateOverflow accounts).2
    let totalOverflow := (overflows.map Prod.snd).sum
    if totalOverflow < eps then
      (clamped,
       [{ iteration := i, balances := balancesOf clamped, overflows := overflows,
          totalOverflow := totalOverflow, flows := [], converged := true }], true)
    else
      let next := redistributeOverflow clamped overflows
      let rest := runLoop eps fuel (i + 1) next.1
      (rest.1,
       { iteration := i, balances := balancesOf clamped, overflows := overflows,
         totalOverflow := totalOverflow, flows := next.2, converged := false } :: rest.2.1,
       rest.2.2)

/-- DistributionResult of lib/flow-funding/types.ts. -/
structure DistributionResult where
  initialBalances : List (String × ℚ)
  finalBalances : List (String × ℚ)
  iterations : List IterationResult
  converged : Bool
  totalFunding : ℚ
  iterationCount : ℕ
deriving Repr, DecidableEq

/-- runDistribution of lib/flow-funding/engine.ts.  The throw on a failed
validation is rendered as the error branch of Except, carrying the
aggregated error list; it happens before the initial snapshot and before
any balance changes, so the error branch returns no account state at all.
The ok branch also returns the final (destructively updated) accounts. -/
def runDistribution (accounts : List Account) (funding : ℚ)
    (maxIterations : ℕ) (eps : ℚ) :
    Except (List VError) (DistributionResult × List Account) :=
  let validation := validateNetwork accounts
  if validation.valid then
    let initialBalances := balancesOf accounts
    let afterInitial := distributeInitial accounts funding
    let res := runLoop eps maxIterations 0 afterInitial
    .ok ({ initialBalances := initialBalances, finalBalances := balancesOf res.1,
           iterations := res.2.1, converged := res.2.2, totalFunding := funding,
           iterationCount := res.2.1.length }, res.1)
  else .error validation.errors

/-- runTargetedDistribution of lib/flow-funding/targeted.ts.  The source
inlines, line for line, the same clamp-record-converge-redistribute loop as
runDistribution (so it is rendered through runLoop), but performs no
validation and no initial distribution, and reports totalFunding zero. -/
def runTargetedDistribution (accounts : List Account)
    (maxIterations : ℕ) (eps : ℚ) : DistributionResult × List Account :=
  let initialBalances := balancesOf accounts
  let res := runLoop eps maxIterations 0 accounts
  ({ initialBalances := initialBalances, finalBalances := balancesOf res.1,
     iterations := res.2.1, converged := res.2.2, totalFunding := 0,
     iterationCount := res.2.1.length }, res.1)

end FlowFunding

namespace TBFF

/-- Status classification of lib/tbff/types.ts. -/
inductive AccountStatus where
  | deficit
  | minimum
  | healthy
  | overflow
deriving Repr, DecidableEq

/-- FlowFundingAccount of lib/tbff/types.ts: financial state, canvas
geometry, and the stored computed properties. -/
structure FlowFundingAccount where
  id : String
  name : String
  balance : ℚ
  minThreshold : ℚ
  maxThreshold : ℚ
  x : ℚ
  y : ℚ
  width : ℚ
  height : ℚ
  status : AccountStatus
  shortfall : ℚ
  capacity : ℚ
  overflow : ℚ
deriving Repr, DecidableEq

/-- Allocation of lib/tbff/types.ts (tbff percentages are 0.0 to 1.0). -/
structure Allocation where
  id : String
  sourceAccountId : String
  targetAccountId : String
  percentage : ℚ
deriving Repr, DecidableEq

/-- FlowFundingNetwork of lib/tbff/types.ts. -/
structure FlowFundingNetwork where
  name : String
  accounts : List FlowFundingAccount
  allocations : List Allocation
  totalFunds : ℚ
  totalShortfall : ℚ
  totalCapacity : ℚ
  totalOverflow : ℚ
deriving Repr, DecidableEq

/-- getAccountStatus of lib/tbff/utils.ts, with its priority order:
deficit, then overflow, then the near-minimum epsilon band, then healthy. -/
def getAccountStatus (account : FlowFundingAccount) : AccountStatus :=
  if account.balance < account.minThreshold then .deficit
  else if account.balance ≥ account.maxThreshold then .overflow
  else if |account.balance - account.minThreshold| < 1 / 100 then .minimum
  else .healthy

/-- calculateShortfall of lib/tbff/utils.ts. -/
def calculateShortfall (account : FlowFundingAccount) : ℚ :=
  max 0 (account.minThreshold - account.balance)

/-- calculateCapacity of lib/tbff/utils.ts. -/
def calculateCapacity (account : FlowFundingAccount) : ℚ :=
  max 0 (account.maxThreshold - account.balance)

/-- calculateOverflow of lib/tbff/utils.ts. -/
def calculateOverflow (account : FlowFundingAccount) : ℚ :=
  max 0 (account.balance - account.maxThreshold)

/-- updateAccountComputedProperties of lib/tbff/utils.ts. -/
def updateAccountComputedProperties (account : FlowFundingAccount) : FlowFundingAccount :=
  { account with
    status := getAccountStatus account
    shortfall := calculateShortfall account
    capacity := calculateCapacity account
    overflow := calculateOverflow account }

/-- calculateNetworkTotals of lib/tbff/utils.ts. -/
def calculateNetworkTotals (network : FlowFundingNetwork) : FlowFundingNetwork :=
  { network with
    totalFunds := (network.accounts.map (fun a => a.balance)).sum
    totalShortfall := (network.accounts.map (fun a => a.shortfall)).sum
    totalCapacity := (network.accounts.map (fun a => a.capacity)).sum
    totalOverflow := (network.accounts.map (fun a => a.overflow)).sum }

/-- distributeProportionallyByShortfall of lib/tbff/algorithms.ts. -/
def distributeProportionallyByShortfall (network : FlowFundingNetwork)
    (funding totalShortfall : ℚ) : FlowFundingNetwork :=
  calculateNetworkTotals
    { network with
      accounts := network.accounts.map (fun acc =>
        let shortfall := max 0 (acc.minThreshold - acc.balance)
        if shortfall = 0 then acc
        else
          updateAccountComputedProperties
            { acc with balance := acc.balance + shortfall / totalShortfall * funding }) }

/-- fillAllMinimums of lib/tbff/algorithms.ts. -/
def fillAllMinimums (network : FlowFundingNetwork) : FlowFundingNetwork :=
  calculateNetworkTotals
    { network with
      accounts := network.accounts.map (fun acc =>
        let shortfall := max 0 (acc.minThreshold - acc.balance)
        if shortfall = 0 then acc
        else updateAccountComputedProperties { acc with balance := acc.minThreshold }) }

/-- distributeEvenly of lib/tbff/algorithms.ts: the zero-capacity fallback
adds funding / accounts.length to every balance. -/
def distributeEvenly (network : FlowFundingNetwork) (funding : ℚ) : FlowFundingNetwork :=
  let perAccount := funding / (network.accounts.length : ℚ)
  calculateNetworkTotals
    { network with
      accounts := network.accounts.map (fun acc =>
        updateAccountComputedProperties { acc with balance := acc.balance + perAccount }) }

/-- distributeByCapacity of lib/tbff/algorithms.ts: proportional to
remaining capacity, falling back to the even split when the total remaining
capacity is zero. -/
def distributeByCapacity (network : FlowFundingNetwork) (funding : ℚ) : FlowFundingNetwork :=
  if funding ≤ 0 then network
  else
    let totalCap := (network.accounts.map (fun acc => max 0 (acc.maxThreshold - acc.balance))).sum
    if totalCap = 0 then distributeEvenly network funding
    else
      calculateNetworkTotals
        { network with
          accounts := network.accounts.map (fun acc =>
            let capacity := max 0 (acc.maxThreshold - acc.balance)
            if capacity = 0 then acc
            else
              updateAccountComputedProperties
                { acc with balance := acc.balance + capacity / totalCap * funding }) }

/-- initialDistribution of lib/tbff/algorithms.ts. -/
def initialDistribution (network : FlowFundingNetwork) (externalFunding : ℚ) :
    FlowFundingNetwork :=
  if externalFunding ≤ 0 then network
  else
    let totalShortfall :=
      (network.accounts.map (fun acc => max 0 (acc.minThreshold - acc.balance))).sum
    if externalFunding < totalShortfall then
      distributeProportionallyByShortfall network externalFunding totalShortfall
    else
      distributeByCapacity (fillAllMinimums network) (externalFunding - totalShortfall)

end TBFF

namespace FlowV2

/-- FlowNode of lib/flow-v2/types.ts.  The optional computed fields are
rendered as Option so that the source patterns totalInflow-or-zero keep
their exact meaning. -/
structure FlowNode where
  id : String
  name : String
  externalInflow : ℚ
  minThreshold : ℚ
  maxThreshold : ℚ
  allocations : List (String × ℚ)
  totalInflow : Option ℚ
  totalOutflow : Option ℚ
  balance : Option ℚ
deriving Repr, DecidableEq

/-- The fatal validation findings of validateNetwork of engine-v2.ts. -/
inductive VError where
  | emptyNetwork
  | negativeMinThreshold (id : String)
  | negativeMaxThreshold (id : String)
  | minExceedsMax (id : String)
  | negativeExternalInflow (id : String)
  | allocationOutOfRange (id target : String)
  | missingTarget (id target : String)
  | selfAllocation (id : String)
  | allocationSumExceeded (id : String)
deriving Repr, DecidableEq

/-- The warnings of validateNetwork of engine-v2.ts. -/
inductive VWarning where
  | noOutgoingAllocations (id : String)
deriving Repr, DecidableEq

structure ValidationResult where
  valid : Bool
  errors : List VError
  warnings : List VWarning
deriving Repr, DecidableEq

/-- Sum of the outgoing allocation percentages of a node. -/
def weightSum (n : FlowNode) : ℚ :=
  (n.allocations.map Prod.snd).sum

/-- The fatal findings validateNetwork records for one node, in source
order. -/
def nodeErrors (ids : List String) (n : FlowNode) : List VError :=
  (if n.minThreshold < 0 then [VError.negativeMinThreshold n.id] else []) ++
  (if n.maxThreshold < 0 then [VError.negativeMaxThreshold n.id] else []) ++
  (if n.minThreshold > n.maxThreshold then [VError.minExceedsMax n.id] else []) ++
  (if n.externalInflow < 0 then [VError.negativeExternalInflow n.id] else []) ++
  (n.allocations.map (fun p =>
    (if p.2 < 0 ∨ p.2 > 100 then [VError.allocationOutOfRange n.id p.1] else []) ++
    (if ids.contains p.1 then [] else [VError.missingTarget n.id p.1]) ++
    (if p.1 = n.id then [VError.selfAllocation n.id] else []))).flatten ++
  (if weightSum n > 10001 / 100 then [VError.allocationSumExceeded n.id] else [])

/-- validateNetwork of lib/flow-v2/engine-v2.ts. -/
def validateNetwork (nodes : List FlowNode) : ValidationResult :=
  if nodes.isEmpty then
    { valid := false, errors := [VError.emptyNetwork], warnings := [] }
  else
    let ids := nodes.map (fun n => n.id)
    let errors := (nodes.map (nodeErrors ids)).flatten
    let warnings := (nodes.map (fun n =>
      if n.allocations.isEmpty ∧ nodes.length > 1 then
        [VWarning.noOutgoingAllocations n.id] else [])).flatten
    { valid := errors.isEmpty, errors := errors, warnings := warnings }

/-- calculateOutflow of lib/flow-v2/engine-v2.ts: the progressive zone
function of totalInflow, with capacityThreshold fixed at 1.5 times the
maximum threshold. -/
def calculateOutflow (node : FlowNode) : ℚ :=
  let totalInflow := node.totalInflow.getD 0
  let capacityThreshold := 3 / 2 * node.maxThreshold
  if totalInflow < node.minThreshold then 0
  else if totalInflow ≥ capacityThreshold then totalInflow - node.maxThreshold
  else
    let buildingRange := capacityThreshold - node.minThreshold
    if buildingRange = 0 then totalInflow - node.maxThreshold
    else
      let excess := totalInflow - node.minThreshold
      let targetOutflow := 1 / 2 * node.maxThreshold
      excess / buildingRange * targetOutflow

/-- The incoming allocated rate a given node receives in one update round:
the sum over all sources with positive outflow and positive weight sum of
the normalized share pointed at this node.  The nodeMap existence check of
the source is subsumed because the receiving node is itself in the list. -/
def newInflow (nodes : List FlowNode) (n : FlowNode) : ℚ :=
  n.externalInflow +
    (nodes.map (fun s =>
      let outflow := s.totalOutflow.getD 0
      let totalAllocation := weightSum s
      if outflow > 0 ∧ totalAllocation > 0 then
        outflow * ((s.allocations.filter (fun p => p.1 = n.id)).map Prod.snd).sum
          / totalAllocation
      else 0)).sum

/-- One fixed-point round: recompute every outflow from the current inflow,
then recompute every inflow from those outflows (Jacobi style), returning
the updated nodes and the maximum absolute inflow change of the round. -/
def steadyStep (nodes : List FlowNode) : List FlowNode × ℚ :=
  let withOutflows := nodes.map (fun n => { n with totalOutflow := some (calculateOutflow n) })
  let updated := withOutflows.map (fun n =>
    { n with totalInflow := some (newInflow withOutflows n) })
  let maxChange := (withOutflows.map (fun n =>
    |newInflow withOutflows n - n.totalInflow.getD 0|)).foldl max 0
  (updated, maxChange)

/-- The iterative convergence loop of calculateSteadyState, with the
remaining budget as fuel; returns the final nodes, the number of rounds
executed, and the converged flag. -/
def steadyLoop (eps : ℚ) : ℕ → ℕ → List FlowNode → List FlowNode × ℕ × Bool
  | 0, iters, nodes => (nodes, iters, false)
  | fuel + 1, iters, nodes =>
    let step := steadyStep nodes
    if step.2 < eps then (step.1, iters + 1, true)
    else steadyLoop eps fuel (iters + 1) step.1

/-- FlowEdge of lib/flow-v2/types.ts. -/
structure FlowEdge where
  source : String
  target : String
  flowRate : ℚ
  percentage : ℚ
deriving Repr, DecidableEq

/-- OverflowNode of lib/flow-v2/types.ts (its id is the constant
string overflow). -/
structure OverflowNode where
  totalInflow : ℚ
deriving Repr, DecidableEq

/-- FlowNetwork of lib/flow-v2/types.ts; the nodeMap is rendered as the
final node list. -/
structure FlowNetwork where
  nodes : List FlowNode
  edges : List FlowEdge
  overflowNode : Option OverflowNode
  totalExternalInflow : ℚ
  totalNetworkCapacity : ℚ
  totalNetworkNeeds : ℚ
  converged : Bool
  iterations : ℕ
deriving Repr, DecidableEq

/-- The post-loop edge computation of calculateSteadyState.  The source
does not re-check target existence here. -/
def computeEdges (nodes : List FlowNode) : List FlowEdge :=
  (nodes.map (fun s =>
    let outflow := s.totalOutflow.getD 0
    if outflow > 0 then
      let totalAllocation := weightSum s
      if totalAllocation > 0 then
        s.allocations.filterMap (fun p =>
          let flowRate := outflow * (p.2 / totalAllocation)
          if flowRate > 0 then
            some { source := s.id, target := p.1, flowRate := flowRate, percentage := p.2 }
          else none)
      else []
    else [])).flatten

/-- The post-loop overflow sink total of calculateSteadyState: each node
contributes its outflow portion not covered by its own allocation
weights. -/
def totalUnallocatedOverflow (nodes : List FlowNode) : ℚ :=
  (nodes.map (fun n =>
    (n.totalOutflow.getD 0) * max 0 (100 - weightSum n) / 100)).sum

/-- calculateSteadyState of lib/flow-v2/engine-v2.ts.  The throw on a
failed validation is rendered as the error branch of Except, before any
node field is touched. -/
def calculateSteadyState (nodes : List FlowNode) (maxIterations : ℕ) (eps : ℚ) :
    Except (List VError) FlowNetwork :=
  let validation := validateNetwork nodes
  if validation.valid then
    let initialized := nodes.map (fun n =>
      { n with totalInflow := some n.externalInflow, totalOutflow := some 0,
               balance := some 0 })
    let res := steadyLoop eps maxIterations 0 initialized
    let finalNodes := res.1
    let overflowTotal := totalUnallocatedOverflow finalNodes
    .ok { nodes := finalNodes
          edges := computeEdges finalNodes
          overflowNode := if overflowTotal > eps then some { totalInflow := overflowTotal } else none
          totalExternalInflow := (nodes.map (fun n => n.externalInflow)).sum
          totalNetworkCapacity := (nodes.map (fun n => n.maxThreshold)).sum
          totalNetworkNeeds := (nodes.map (fun n => n.minThreshold)).sum
          converged := res.2.2
          iterations := res.2.1 }
  else .error validation.errors

end FlowV2

namespace FlowFunding

/-- Total balance held by a list of accounts. -/
def balSum (xs : List Account) : ℚ := (xs.map (fun a => a.balance)).sum

/-- The id column of an account list. -/
def idsOf (xs : List Account) : List String := xs.map (fun a => a.id)

/-- Total overflow carried by a list of accounts. -/
def totalOverflowOf (xs : List Account) : ℚ :=
  (xs.map (fun a => max 0 (a.balance - a.maxThreshold))).sum

/-- Two accounts agreeing on every field except possibly the balance; the
redistribution loop only ever rewrites balances. -/
structure SameShape (a b : Account) : Prop where
  id_eq : a.id = b.id
  name_eq : a.name = b.name
  min_eq : a.minThreshold = b.minThreshold
  max_eq : a.maxThreshold = b.maxThreshold
  alloc_eq : a.allocations = b.allocations

/-- SameShape together with a non-decreasing balance. -/
structure Grows (a b : Account) : Prop where
  shape : SameShape a b
  le : a.balance ≤ b.balance

/-- The structural facts the redistribution proofs need, all of which the
validator enforces on a network with unique account ids: ids are unique,
allocation weights are non-negative and every allocation target is an
account of the list. -/
def WF (xs : List Account) : Prop :=
  (idsOf xs).Nodup ∧
  ∀ a ∈ xs, ∀ p ∈ a.allocations, 0 ≤ p.2 ∧ p.1 ∈ idsOf xs

/-- Multiplying every outgoing allocation weight of one account by c. -/
def scaleAccount (c : ℚ) (a : Account) : Account :=
  { a with allocations := a.allocations.map (fun p => (p.1, c * p.2)) }

/-- Multiplying every outgoing allocation weight in the network by c. -/
def scaleAccounts (c : ℚ) (xs : List Account) : List Account :=
  xs.map (scaleAccount c)

/-- Modelled from the claim wording of C4 (not from the source): the list
of fatal conditions the claim says the validator flags, and nothing else:
negative thresholds, min above max, negative balance, a self-allocation,
an allocation to a missing target, or a weight sum exceeding 100 by more
than 0.01. -/
def ClaimedFatal (ids : List String) (a : Account) : Prop :=
  a.minThreshold < 0 ∨ a.maxThreshold < 0 ∨ a.minThreshold > a.maxThreshold ∨
  a.balance < 0 ∨
  (∃ p ∈ a.allocations, p.1 = a.id) ∨
  (∃ p ∈ a.allocations, ¬ ids.contains p.1) ∨
  weightSum a > 10001 / 100

/-- The full list of per-account fatal conditions the source validator
actually flags: the claimed ones plus an individual allocation weight
outside the range 0 to 100 (equivalently, some allocation entry violates
the range check, the existence check or the self check). -/
def AmendedFatal (ids : List String) (a : Account) : Prop :=
  a.minThreshold < 0 ∨ a.maxThreshold < 0 ∨ a.minThreshold > a.maxThreshold ∨
  a.balance < 0 ∨
  (∃ p ∈ a.allocations, p.2 < 0 ∨ p.2 > 100 ∨ ¬ ids.contains p.1 ∨ p.1 = a.id) ∨
  weightSum a > 10001 / 100

end FlowFunding

namespace FlowV2

/-- Multiplying every outgoing allocation weight of one node by c. -/
def scaleNode (c : ℚ) (n : FlowNode) : FlowNode :=
  { n with allocations := n.allocations.map (fun p => (p.1, c * p.2)) }

/-- Multiplying every outgoing allocation weight in the network by c. -/
def scaleNodes (c : ℚ) (xs : List FlowNode) : List FlowNode :=
  xs.map (scaleNode c)

/-- The full list of per-node fatal conditions the continuous validator
flags. -/
def AmendedFatalV2 (ids : List String) (n : FlowNode) : Prop :=
  n.minThreshold < 0 ∨ n.maxThreshold < 0 ∨ n.minThreshold > n.maxThreshold ∨
  n.externalInflow < 0 ∨
  (∃ p ∈ n.allocations, p.2 < 0 ∨ p.2 > 100 ∨ ¬ ids.contains p.1 ∨ p.1 = n.id) ∨
  weightSum n > 10001 / 100

end FlowV2

namespace FlowFunding

/-- clampToMax rewrites the balance to the minimum of balance and maximum
threshold and leaves every other field alone. -/
theorem clampToMax_eq (a : Account) :
    clampToMax a = { a with balance := min a.balance a.maxThreshold } := by
  unfold clampToMax
  split_ifs with h
  · have hb : a.maxThreshold ≤ a.balance := by
      rcases lt_max_iff.mp h with h0 | h0
      · exact absurd h0 (lt_irrefl 0)
      · linarith
    rw [min_eq_right hb]
  · have hb : a.balance ≤ a.maxThreshold := by
      by_contra hc
      exact h (lt_max_iff.mpr (Or.inr (by linarith [lt_of_not_le hc])))
    rw [min_eq_left hb]

end FlowFunding

/-- C3: both engines fail fast and atomically.  When validation reports
valid false, runDistribution and calculateSteadyState return the error
branch carrying the aggregated error list, produced before the initial
snapshot and before any balance, totalInflow or totalOutflow is written
(the error branch carries no account state at all); on a valid input both
engines return the ok branch, and no other failure exists in either
computation. -/
theorem engines_fail_fast
    (accounts : List FlowFunding.Account) (nodes : List FlowV2.FlowNode)
    (funding eps epsV : ℚ) (maxIter maxIterV : ℕ) :
    ((FlowFunding.validateNetwork accounts).valid = false →
      FlowFunding.runDistribution accounts funding maxIter eps =
        .error (FlowFunding.validateNetwork accounts).errors) ∧
    ((FlowFunding.validateNetwork accounts).valid = true →
      (FlowFunding.runDistribution accounts funding maxIter eps).isOk = true) ∧
    ((FlowV2.validateNetwork nodes).valid = false →
      FlowV2.calculateSteadyState nodes maxIterV epsV =
        .error (FlowV2.validateNetwork nodes).errors) ∧
    ((FlowV2.validateNetwork nodes).valid = true →
      (FlowV2.calculateSteadyState nodes maxIterV epsV).isOk = true) := by
  refine ⟨fun h => ?_, fun h => ?_, fun h => ?_, fun h => ?_⟩
  · unfold FlowFunding.runDistribution
    simp [h]
  · unfold FlowFunding.runDistribution
    simp [h, Except.isOk, Except.toBool]
  · unfold FlowV2.calculateSteadyState
    simp [h]
  · unfold FlowV2.calculateSteadyState
    simp [h, Except.isOk, Except.toBool]

/-- Witness for C3 at concrete inputs: a one-account network with a
negative balance is rejected with the aggregated error list, a well formed
one-account network runs to the ok branch; likewise for the continuous
engine with a negative external inflow. -/
theorem engines_fail_fast_witness :
    ((FlowFunding.validateNetwork
        [{ id := "A", name := "A", balance := -1, minThreshold := 0, maxThreshold := 10,
           allocations := [] }]).valid = false ∧
      FlowFunding.runDistribution
        [{ id := "A", name := "A", balance := -1, minThreshold := 0, maxThreshold := 10,
           allocations := [] }] 5 3 (1 / 100) =
        .error [FlowFunding.VError.negativeBalance "A"]) ∧
    ((FlowFunding.validateNetwork
        [{ id := "A", name := "A", balance := 0, minThreshold := 0, maxThreshold := 10,
           allocations := [] }]).valid = true ∧
      (FlowFunding.runDistribution
        [{ id := "A", name := "A", balance := 0, minThreshold := 0, maxThreshold := 10,
           allocations := [] }] 5 3 (1 / 100)).isOk = true) ∧
    ((FlowV2.validateNetwork
        [{ id := "N", name := "N", externalInflow := -1, minThreshold := 0, maxThreshold := 10,
           allocations := [], totalInflow := none, totalOutflow := none, balance := none }]).valid
        = false ∧
      FlowV2.calculateSteadyState
        [{ id := "N", name := "N", externalInflow := -1, minThreshold := 0, maxThreshold := 10,
           allocations := [], totalInflow := none, totalOutflow := none, balance := none }]
        3 (1 / 1000) = .error [FlowV2.VError.negativeExternalInflow "N"]) ∧
    ((FlowV2.validateNetwork
        [{ id := "N", name := "N", externalInflow := 1, minThreshold := 0, maxThreshold := 10,
           allocations := [], totalInflow := none, totalOutflow := none, balance := none }]).valid
        = true ∧
      (FlowV2.calculateSteadyState
        [{ id := "N", name := "N", externalInflow := 1, minThreshold := 0, maxThreshold := 10,
           allocations := [], totalInflow := none, totalOutflow := none, balance := none }]
        3 (1 / 1000)).isOk = true) := by
  refine ⟨⟨by with_unfolding_all decide, ?_⟩, ⟨by with_unfolding_all decide, ?_⟩,
    ⟨by with_unfolding_all decide, ?_⟩, ⟨by with_unfolding_all decide, ?_⟩⟩
  · exact (engines_fail_fast _ [] 5 (1 / 100) (1 / 1000) 3 3 |>.1
      (by with_unfolding_all decide)).trans (by with_unfolding_all rfl)
  · exact engines_fail_fast _ [] 5 (1 / 100) (1 / 1000) 3 3 |>.2.1 (by with_unfolding_all decide)
  · exact (engines_fail_fast [] _ 5 (1 / 100) (1 / 1000) 3 3 |>.2.2.1
      (by with_unfolding_all decide)).trans (by with_unfolding_all rfl)
  · exact engines_fail_fast [] _ 5 (1 / 100) (1 / 1000) 3 3 |>.2.2.2 (by with_unfolding_all decide)

/-- C5: zone continuity of the continuous outflow function.  For any node
with thresholds 0 <= min <= max, calculateOutflow at totalInflow = min is
0 and at totalInflow = capacityThreshold = 1.5 * max it is
capacityThreshold - max, which equals 0.5 * max; all identities are exact
over the rationals. -/
theorem calculateOutflow_zone_continuity (n : FlowV2.FlowNode)
    (h0 : 0 ≤ n.minThreshold) (h1 : n.minThreshold ≤ n.maxThreshold) :
    FlowV2.calculateOutflow { n with totalInflow := some n.minThreshold } = 0 ∧
    FlowV2.calculateOutflow { n with totalInflow := some (3 / 2 * n.maxThreshold) } =
      3 / 2 * n.maxThreshold - n.maxThreshold ∧
    3 / 2 * n.maxThreshold - n.maxThreshold = 1 / 2 * n.maxThreshold := by
  refine ⟨?_, ?_, by ring⟩
  · unfold FlowV2.calculateOutflow
    simp only [Option.getD_some]
    split_ifs with ha hb hc
    · rfl
    · linarith
    · linarith
    · simp
  · unfold FlowV2.calculateOutflow
    simp only [Option.getD_some]
    split_ifs with ha hb hc
    · linarith
    · rfl
    · linarith
    · linarith

/-- Witness for C5 at min = 2, max = 4: outflow 0 at inflow 2, outflow 2
at the capacity threshold 6. -/
theorem calculateOutflow_zone_continuity_witness :
    (0 : ℚ) ≤ 2 ∧ (2 : ℚ) ≤ 4 ∧
    FlowV2.calculateOutflow
      { id := "X", name := "X", externalInflow := 0, minThreshold := 2, maxThreshold := 4,
        allocations := [], totalInflow := some 2, totalOutflow := none, balance := none } = 0 ∧
    FlowV2.calculateOutflow
      { id := "X", name := "X", externalInflow := 0, minThreshold := 2, maxThreshold := 4,
        allocations := [], totalInflow := some 6, totalOutflow := none, balance := none } = 2 := by
  have h := calculateOutflow_zone_continuity
    { id := "X", name := "X", externalInflow := 0, minThreshold := 2, maxThreshold := 4,
      allocations := [], totalInflow := none, totalOutflow := none, balance := none }
    (by norm_num) (by norm_num)
  refine ⟨by norm_num, by norm_num, h.1, ?_⟩
  have h2 := h.2.1
  norm_num at h2
  exact h2

/-- C8: status classification priority of getAccountStatus, evaluated in
the order deficit, overflow, near-minimum epsilon band, healthy; in
particular a balance at once at or above max and within 0.01 of min
classifies as overflow because the overflow check runs first. -/
theorem getAccountStatus_priority (a : TBFF.FlowFundingAccount) :
    (TBFF.getAccountStatus a = .deficit ↔ a.balance < a.minThreshold) ∧
    (TBFF.getAccountStatus a = .overflow ↔
      ¬ a.balance < a.minThreshold ∧ a.balance ≥ a.maxThreshold) ∧
    (TBFF.getAccountStatus a = .minimum ↔
      ¬ a.balance < a.minThreshold ∧ ¬ a.balance ≥ a.maxThreshold ∧
        |a.balance - a.minThreshold| < 1 / 100) ∧
    (TBFF.getAccountStatus a = .healthy ↔
      ¬ a.balance < a.minThreshold ∧ ¬ a.balance ≥ a.maxThreshold ∧
        ¬ |a.balance - a.minThreshold| < 1 / 100) := by
  unfold TBFF.getAccountStatus
  split_ifs with h1 h2 h3 <;> simp_all

/-- C10: the targeted entry point has no validation gate.  For every
input account list, valid or not, runTargetedDistribution returns a
DistributionResult whose initial snapshot is the caller balances and whose
first recorded round already carries the clamped (mutated) balances
min(balance, maxThreshold); nothing in it can produce a validation
failure. -/
theorem runTargetedDistribution_no_validation_gate
    (accounts : List FlowFunding.Account) (maxIter : ℕ) (eps : ℚ)
    (h : 0 < maxIter) :
    ((FlowFunding.runTargetedDistribution accounts maxIter eps).1.initialBalances =
      FlowFunding.balancesOf accounts) ∧
    ((FlowFunding.runTargetedDistribution accounts maxIter eps).1.iterations.head?.map
        (fun rec => rec.balances) =
      some (accounts.map (fun a => (a.id, min a.balance a.maxThreshold)))) ∧
    (FlowFunding.runTargetedDistribution accounts maxIter eps).1.totalFunding = 0 := by
  obtain ⟨fuel, rfl⟩ : ∃ f, maxIter = f + 1 := ⟨maxIter - 1, by omega⟩
  have hbal : FlowFunding.balancesOf (accounts.map FlowFunding.clampToMax) =
      accounts.map (fun a => (a.id, min a.balance a.maxThreshold)) := by
    unfold FlowFunding.balancesOf
    rw [List.map_map]
    refine List.map_congr_left (fun a _ => ?_)
    simp [Function.comp, FlowFunding.clampToMax_eq]
  unfold FlowFunding.runTargetedDistribution FlowFunding.runLoop
  refine ⟨rfl, ?_, rfl⟩
  unfold FlowFunding.calculateOverflow
  dsimp only
  split <;> simp [hbal]

/-- Witness for C10: a network that the validator rejects on four counts
(negative threshold, self-allocation, out-of-range weight, weight sum) is
still processed, its balance clamped from 15 to the maximum 10 in the
first recorded round. -/
theorem runTargetedDistribution_no_validation_gate_witness :
    (FlowFunding.validateNetwork
      [{ id := "A", name := "A", balance := 15, minThreshold := -1, maxThreshold := 10,
         allocations := [("A", 200)] }]).valid = false ∧
    (0 : ℕ) < 4 ∧
    ((FlowFunding.runTargetedDistribution
      [{ id := "A", name := "A", balance := 15, minThreshold := -1, maxThreshold := 10,
         allocations := [("A", 200)] }] 4 (1 / 100)).1.iterations.head?.map
        (fun rec => rec.balances) = some [("A", 10)]) := by
  refine ⟨by with_unfolding_all decide, by decide, ?_⟩
  have h := runTargetedDistribution_no_validation_gate
    [{ id := "A", name := "A", balance := 15, minThreshold := -1, maxThreshold := 10,
       allocations := [("A", 200)] }] 4 (1 / 100) (by decide)
  rw [h.2.1]
  with_unfolding_all decide

namespace FlowV2

/-- A one-node example network for exercising the overflow sink: external
inflow 30 against capacity 10, no allocations. -/
def sinkExampleNode : FlowNode :=
  { id := "X", name := "X", externalInflow := 30, minThreshold := 0, maxThreshold := 10,
    allocations := [], totalInflow := none, totalOutflow := none, balance := none }

/-- The steady state the engine computes for the one-node sink example. -/
def sinkExampleNet : FlowNetwork :=
  { nodes :=
      [{ id := "X", name := "X", externalInflow := 30, minThreshold := 0, maxThreshold := 10,
         allocations := [], totalInflow := some 30, totalOutflow := some 20,
         balance := some 0 }],
    edges := [], overflowNode := some { totalInflow := 20 }, totalExternalInflow := 30,
    totalNetworkCapacity := 10, totalNetworkNeeds := 0, converged := true, iterations := 1 }

end FlowV2

/-- A conditional singleton list is empty exactly when the condition
fails. -/
theorem ite_cons_eq_nil_iff {α : Type} {c : Prop} [Decidable c] {x : α} :
    ((if c then [x] else []) = []) ↔ ¬ c := by
  split_ifs with h <;> simp [h]

/-- A conditional singleton list (negated shape) is empty exactly when the
condition holds. -/
theorem ite_nil_eq_nil_iff {α : Type} {c : Prop} [Decidable c] {x : α} :
    ((if c then [] else [x]) = []) ↔ c := by
  split_ifs with h <;> simp [h]

namespace FlowFunding

/-- accountErrors is empty exactly when none of the fatal conditions of the
source validator holds for this account. -/
theorem accountErrors_eq_nil_iff (ids : List String) (a : Account) :
    accountErrors ids a = [] ↔ ¬ AmendedFatal ids a := by
  unfold accountErrors
  simp only [List.append_eq_nil, ite_cons_eq_nil_iff, ite_nil_eq_nil_iff,
    List.flatten_eq_nil_iff, List.mem_map, forall_exists_index, and_imp,
    forall_apply_eq_imp_iff₂]
  unfold AmendedFatal
  constructor
  · rintro ⟨⟨⟨⟨⟨h1, h2⟩, h3⟩, h4⟩, h5⟩, h6⟩
    push_neg
    refine ⟨not_lt.mp h1, not_lt.mp h2, not_lt.mp h3, not_lt.mp h4, fun p hp => ?_,
      not_lt.mp h6⟩
    obtain ⟨⟨hr, hc⟩, hs⟩ := h5 p hp
    rcases not_or.mp hr with ⟨hr1, hr2⟩
    exact ⟨not_lt.mp hr1, not_lt.mp hr2, by simpa using hc, hs⟩
  · intro h
    push_neg at h
    obtain ⟨h1, h2, h3, h4, h5, h6⟩ := h
    refine ⟨⟨⟨⟨⟨not_lt.mpr h1, not_lt.mpr h2⟩, not_lt.mpr h3⟩, not_lt.mpr h4⟩,
      fun p hp => ?_⟩, not_lt.mpr h6⟩
    obtain ⟨hr1, hr2, hc, hs⟩ := h5 p hp
    exact ⟨⟨not_or.mpr ⟨not_lt.mpr hr1, not_lt.mpr hr2⟩, by simpa using hc⟩, hs⟩

/-- The discrete validator reports valid false exactly for the empty list
or when some account satisfies a fatal condition. -/
theorem validateNetwork_invalid_iff (accounts : List Account) :
    (validateNetwork accounts).valid = false ↔
      accounts = [] ∨ ∃ a ∈ accounts, AmendedFatal (idsOf accounts) a := by
  unfold validateNetwork
  split_ifs with h
  · simp [List.isEmpty_iff.mp h]
  · have hne : accounts ≠ [] := fun hc => h (by simp [hc])
    dsimp only
    simp only [hne, false_or, List.isEmpty_eq_false, ne_eq, List.flatten_eq_nil_iff,
      List.mem_map, forall_exists_index, and_imp, forall_apply_eq_imp_iff₂, not_forall]
    refine exists_congr fun a => ?_
    rw [exists_prop]
    exact and_congr_right fun ha =>
      (not_iff_not.mpr (accountErrors_eq_nil_iff (idsOf accounts) a)).trans not_not

end FlowFunding

namespace FlowV2

/-- nodeErrors is empty exactly when none of the fatal conditions of the
continuous validator holds for this node. -/
theorem nodeErrors_eq_nil_iff (ids : List String) (n : FlowNode) :
    nodeErrors ids n = [] ↔ ¬ AmendedFatalV2 ids n := by
  unfold nodeErrors
  simp only [List.append_eq_nil, ite_cons_eq_nil_iff, ite_nil_eq_nil_iff,
    List.flatten_eq_nil_iff, List.mem_map, forall_exists_index, and_imp,
    forall_apply_eq_imp_iff₂]
  unfold AmendedFatalV2
  constructor
  · rintro ⟨⟨⟨⟨⟨h1, h2⟩, h3⟩, h4⟩, h5⟩, h6⟩
    push_neg
    refine ⟨not_lt.mp h1, not_lt.mp h2, not_lt.mp h3, not_lt.mp h4, fun p hp => ?_,
      not_lt.mp h6⟩
    obtain ⟨⟨hr, hc⟩, hs⟩ := h5 p hp
    rcases not_or.mp hr with ⟨hr1, hr2⟩
    exact ⟨not_lt.mp hr1, not_lt.mp hr2, by simpa using hc, hs⟩
  · intro h
    push_neg at h
    obtain ⟨h1, h2, h3, h4, h5, h6⟩ := h
    refine ⟨⟨⟨⟨⟨not_lt.mpr h1, not_lt.mpr h2⟩, not_lt.mpr h3⟩, not_lt.mpr h4⟩,
      fun p hp => ?_⟩, not_lt.mpr h6⟩
    obtain ⟨hr1, hr2, hc, hs⟩ := h5 p hp
    exact ⟨⟨not_or.mpr ⟨not_lt.mpr hr1, not_lt.mpr hr2⟩, by simpa using hc⟩, hs⟩

/-- The continuous validator reports valid false exactly for the empty list
or when some node satisfies a fatal condition. -/
theorem validateNetwork_invalid_iffV2 (nodes : List FlowNode) :
    (validateNetwork nodes).valid = false ↔
      nodes = [] ∨ ∃ n ∈ nodes, AmendedFatalV2 (nodes.map (fun n => n.id)) n := by
  unfold validateNetwork
  split_ifs with h
  · simp [List.isEmpty_iff.mp h]
  · have hne : nodes ≠ [] := fun hc => h (by simp [hc])
    dsimp only
    simp only [hne, false_or, List.isEmpty_eq_false, ne_eq, List.flatten_eq_nil_iff,
      List.mem_map, forall_exists_index, and_imp, forall_apply_eq_imp_iff₂, not_forall]
    refine exists_congr fun n => ?_
    rw [exists_prop]
    exact and_congr_right fun hn =>
      (not_iff_not.mpr (nodeErrors_eq_nil_iff (nodes.map (fun n => n.id)) n)).trans not_not

end FlowV2

/-- C4 (amended): each validator never raises (it is a total function) and
reports valid false exactly when the account list is empty or some
account satisfies one of the fatal conditions: negative thresholds, min
above max, negative balance (discrete) or negative external inflow
(continuous), an individual allocation weight outside the range 0 to 100,
an allocation to a missing target, a self-allocation, or an outgoing
weight sum exceeding 100 by more than 0.01. -/
theorem validators_invalid_characterization
    (accounts : List FlowFunding.Account) (nodes : List FlowV2.FlowNode) :
    ((FlowFunding.validateNetwork accounts).valid = false ↔
      accounts = [] ∨
        ∃ a ∈ accounts, FlowFunding.AmendedFatal (FlowFunding.idsOf accounts) a) ∧
    ((FlowV2.validateNetwork nodes).valid = false ↔
      nodes = [] ∨ ∃ n ∈ nodes, FlowV2.AmendedFatalV2 (nodes.map (fun n => n.id)) n) :=
  ⟨FlowFunding.validateNetwork_invalid_iff accounts,
   FlowV2.validateNetwork_invalid_iffV2 nodes⟩

/-- C4 counterexample: two inputs the validator rejects although no account
satisfies any of the conditions the claim lists.  The empty network is
rejected with no account at all, and a network whose only flaw is one
negative allocation weight of -5 (weight sum -5, well under the 100.01
tolerance) is rejected through the per-allocation range check the claim
does not list. -/
theorem validator_claimed_conditions_counterexample :
    ((FlowFunding.validateNetwork []).valid = false ∧
      ¬ ∃ a ∈ ([] : List FlowFunding.Account), FlowFunding.ClaimedFatal [] a) ∧
    ((FlowFunding.validateNetwork
        [{ id := "X", name := "X", balance := 0, minThreshold := 0, maxThreshold := 10,
           allocations := [("Y", -5)] },
         { id := "Y", name := "Y", balance := 0, minThreshold := 0, maxThreshold := 10,
           allocations := [] }]).valid = false ∧
      ¬ ∃ a ∈
          [{ id := "X", name := "X", balance := 0, minThreshold := 0, maxThreshold := 10,
             allocations := [("Y", -5)] },
           { id := "Y", name := "Y", balance := 0, minThreshold := 0, maxThreshold := 10,
             allocations := ([] : List (String × ℚ)) }],
        FlowFunding.ClaimedFatal ["X", "Y"] a) := by
  refine ⟨⟨by decide, ?_⟩, ⟨by with_unfolding_all decide, ?_⟩⟩ <;>
    · simp only [FlowFunding.ClaimedFatal, FlowFunding.weightSum]
      with_unfolding_all decide

/-- C1 (amended): when funding covers the total shortfall and the total
remaining capacity after filling every minimum is zero, the two Phase A
implementations differ.  distributeInitial of the flow-funding engine
returns the minimum-filled accounts unchanged, silently dropping the
remainder; only distributeByCapacity of the tbff module falls back to the
even split, adding funding divided by the account count to every
balance. -/
theorem zero_capacity_remainder_behaviour
    (accounts : List FlowFunding.Account) (funding : ℚ)
    (network : TBFF.FlowFundingNetwork) (tfunding : ℚ)
    (h1 : FlowFunding.totalShortfall accounts ≤ funding)
    (h2 : FlowFunding.totalCapacity (FlowFunding.fillMinimums accounts) = 0)
    (h3 : 0 < tfunding)
    (h4 : (network.accounts.map (fun acc => max 0 (acc.maxThreshold - acc.balance))).sum = 0) :
    FlowFunding.distributeInitial accounts funding = FlowFunding.fillMinimums accounts ∧
    (TBFF.distributeByCapacity network tfunding).accounts.map (fun acc => acc.balance) =
      network.accounts.map
        (fun acc => acc.balance + tfunding / (network.accounts.length : ℚ)) := by
  constructor
  · unfold FlowFunding.distributeInitial
    dsimp only
    split_ifs with hlt hrem
    · exact absurd hlt (not_lt.mpr h1)
    · rfl
    · rfl
  · unfold TBFF.distributeByCapacity
    rw [if_neg (not_le.mpr h3)]
    dsimp only
    rw [if_pos h4]
    unfold TBFF.distributeEvenly TBFF.calculateNetworkTotals
    dsimp only
    rw [List.map_map]
    refine List.map_congr_left (fun acc _ => ?_)
    simp [TBFF.updateAccountComputedProperties, Function.comp]

/-- C1 counterexample: a single valid account already at its maximum of 10
with funding 5.  Funding covers the zero shortfall and total remaining
capacity is zero, yet distributeInitial leaves the balance at 10 rather
than adding the even split 5 (which would give 15 = 10 + (5 - 0) / 1), so
the remainder is silently dropped by the discrete engine. -/
theorem distributeInitial_drops_remainder_counterexample :
    (FlowFunding.validateNetwork
      [{ id := "A", name := "A", balance := 10, minThreshold := 0, maxThreshold := 10,
         allocations := [] }]).valid = true ∧
    FlowFunding.totalShortfall
      [{ id := "A", name := "A", balance := 10, minThreshold := 0, maxThreshold := 10,
         allocations := [] }] = 0 ∧
    FlowFunding.totalCapacity (FlowFunding.fillMinimums
      [{ id := "A", name := "A", balance := 10, minThreshold := 0, maxThreshold := 10,
         allocations := [] }]) = 0 ∧
    (FlowFunding.distributeInitial
      [{ id := "A", name := "A", balance := 10, minThreshold := 0, maxThreshold := 10,
         allocations := [] }] 5).map (fun a => a.balance) = [10] ∧
    (FlowFunding.distributeInitial
      [{ id := "A", name := "A", balance := 10, minThreshold := 0, maxThreshold := 10,
         allocations := [] }] 5).map (fun a => a.balance) ≠ [15] := by
  refine ⟨by with_unfolding_all decide, by with_unfolding_all decide,
    by with_unfolding_all decide, by with_unfolding_all decide, by with_unfolding_all decide⟩

/-- Witness for the amended C1 at concrete inputs: the engine account list
keeps its minimum-filled balances, while the tbff network receives the even
split. -/
theorem zero_capacity_remainder_behaviour_witness :
    FlowFunding.totalShortfall
      [{ id := "A", name := "A", balance := 10, minThreshold := 0, maxThreshold := 10,
         allocations := [] }] ≤ 5 ∧
    FlowFunding.totalCapacity (FlowFunding.fillMinimums
      [{ id := "A", name := "A", balance := 10, minThreshold := 0, maxThreshold := 10,
         allocations := [] }]) = 0 ∧
    (0 : ℚ) < 4 ∧
    FlowFunding.distributeInitial
      [{ id := "A", name := "A", balance := 10, minThreshold := 0, maxThreshold := 10,
         allocations := [] }] 5 =
      FlowFunding.fillMinimums
        [{ id := "A", name := "A", balance := 10, minThreshold := 0, maxThreshold := 10,
           allocations := [] }] ∧
    (TBFF.distributeByCapacity
      { name := "N",
        accounts :=
          [{ id := "P", name := "P", balance := 10, minThreshold := 0, maxThreshold := 10,
             x := 0, y := 0, width := 0, height := 0, status := TBFF.AccountStatus.overflow,
             shortfall := 0, capacity := 0, overflow := 0 }],
        allocations := [], totalFunds := 10, totalShortfall := 0, totalCapacity := 0,
        totalOverflow := 0 } 4).accounts.map (fun acc => acc.balance) =
      ([{ id := "P", name := "P", balance := 10, minThreshold := 0, maxThreshold := 10,
          x := 0, y := 0, width := 0, height := 0, status := TBFF.AccountStatus.overflow,
          shortfall := 0, capacity := 0, overflow := 0 }] : List TBFF.FlowFundingAccount).map
        (fun acc => acc.balance + 4 / (1 : ℚ)) := by
  have h := zero_capacity_remainder_behaviour
    [{ id := "A", name := "A", balance := 10, minThreshold := 0, maxThreshold := 10,
       allocations := [] }] 5
    { name := "N",
      accounts :=
        [{ id := "P", name := "P", balance := 10, minThreshold := 0, maxThreshold := 10,
           x := 0, y := 0, width := 0, height := 0, status := TBFF.AccountStatus.overflow,
           shortfall := 0, capacity := 0, overflow := 0 }],
      allocations := [], totalFunds := 10, totalShortfall := 0, totalCapacity := 0,
      totalOverflow := 0 } 4
    (by with_unfolding_all decide) (by with_unfolding_all decide)
    (by norm_num) (by with_unfolding_all decide)
  exact ⟨by with_unfolding_all decide, by with_unfolding_all decide, by norm_num,
    h.1, h.2⟩

/-- C9: the overflow sink of the continuous engine.  Whenever
calculateSteadyState returns a result, that result carries an overflow
node exactly when the sum over the returned nodes of
outflow * max(0, 100 - weight sum) / 100 exceeds epsilon, and the overflow
node then carries exactly that sum as its totalInflow; at or below epsilon
the overflowNode field is none. -/
theorem calculateSteadyState_overflow_sink
    (nodes : List FlowV2.FlowNode) (maxIter : ℕ) (eps : ℚ) (net : FlowV2.FlowNetwork)
    (h : FlowV2.calculateSteadyState nodes maxIter eps = .ok net) :
    (net.overflowNode ≠ none ↔
      ((net.nodes.map (fun n =>
        (n.totalOutflow.getD 0) * max 0 (100 - FlowV2.weightSum n) / 100)).sum) > eps) ∧
    (∀ o, net.overflowNode = some o →
      o.totalInflow =
        ((net.nodes.map (fun n =>
          (n.totalOutflow.getD 0) * max 0 (100 - FlowV2.weightSum n) / 100)).sum)) := by
  unfold FlowV2.calculateSteadyState at h
  dsimp only at h
  split_ifs at h with hv hgt
  · injection h with h
    subst h
    refine ⟨⟨fun _ => hgt, fun _ => by simp⟩, fun o ho => ?_⟩
    injection ho with ho
    subst ho
    rfl
  · injection h with h
    subst h
    refine ⟨⟨fun hne => absurd rfl hne, fun hgt2 => absurd hgt2 hgt⟩, fun o ho => ?_⟩
    exact absurd ho (by simp)

/-- Witness for C9: a single node receiving 30 against a capacity of 10
with no allocations converges in one round with outflow 20, all of it
unallocated, so the overflow sink materializes carrying exactly 20. -/
theorem calculateSteadyState_overflow_sink_witness :
    FlowV2.calculateSteadyState [FlowV2.sinkExampleNode] 10 (1 / 1000) =
      .ok FlowV2.sinkExampleNet ∧
    (FlowV2.sinkExampleNet.overflowNode ≠ none ↔
      ((FlowV2.sinkExampleNet.nodes.map (fun n =>
        (n.totalOutflow.getD 0) * max 0 (100 - FlowV2.weightSum n) / 100)).sum) > 1 / 1000) ∧
    (20 : ℚ) =
      ((FlowV2.sinkExampleNet.nodes.map (fun n =>
        (n.totalOutflow.getD 0) * max 0 (100 - FlowV2.weightSum n) / 100)).sum) := by
  have h : FlowV2.calculateSteadyState [FlowV2.sinkExampleNode] 10 (1 / 1000) =
      .ok FlowV2.sinkExampleNet := by
    with_unfolding_all rfl
  exact ⟨h, (calculateSteadyState_overflow_sink _ _ _ _ h).1,
    (calculateSteadyState_overflow_sink _ _ _ _ h).2 { totalInflow := 20 } rfl⟩

namespace FlowFunding

theorem sameShape_self (a : Account) : SameShape a a :=
  ⟨rfl, rfl, rfl, rfl, rfl⟩

theorem sameShape_trans {a b c : Account} (h1 : SameShape a b) (h2 : SameShape b c) :
    SameShape a c :=
  ⟨h1.id_eq.trans h2.id_eq, h1.name_eq.trans h2.name_eq, h1.min_eq.trans h2.min_eq,
   h1.max_eq.trans h2.max_eq, h1.alloc_eq.trans h2.alloc_eq⟩

theorem grows_self (a : Account) : Grows a a := ⟨sameShape_self a, le_refl _⟩

theorem grows_trans {a b c : Account} (h1 : Grows a b) (h2 : Grows b c) : Grows a c :=
  ⟨sameShape_trans h1.shape h2.shape, h1.le.trans h2.le⟩

/-- Forall₂ transitivity for any transitive relation on accounts. -/
theorem forall₂_account_trans {R : Account → Account → Prop}
    (hR : ∀ a b c, R a b → R b c → R a c) :
    ∀ {xs ys zs : List Account}, List.Forall₂ R xs ys → List.Forall₂ R ys zs →
      List.Forall₂ R xs zs := by
  intro xs ys zs h1
  induction h1 generalizing zs with
  | nil => intro h2; cases h2; exact .nil
  | cons hab _ ih =>
    intro h2
    cases h2 with
    | cons hbc h2t => exact .cons (hR _ _ _ hab hbc) (ih h2t)

/-- A pointwise map relates a list to its image under Forall₂. -/
theorem forall₂_map_self {R : Account → Account → Prop} (g : Account → Account)
    (h : ∀ a, R a (g a)) : ∀ xs : List Account, List.Forall₂ R xs (xs.map g) := by
  intro xs
  induction xs with
  | nil => exact .nil
  | cons a t ih => exact .cons (h a) ih

theorem forall₂_account_refl {R : Account → Account → Prop}
    (h : ∀ a, R a a) (xs : List Account) : List.Forall₂ R xs xs := by
  induction xs with
  | nil => exact .nil
  | cons a t ih => exact .cons (h a) ih

theorem forall₂_sameShape_mem {xs ys : List Account}
    (h : List.Forall₂ SameShape xs ys) : ∀ b ∈ ys, ∃ a ∈ xs, SameShape a b := by
  induction h with
  | nil => intro b hb; cases hb
  | cons hab _ ih =>
    intro b hb
    rcases List.mem_cons.mp hb with h0 | h0
    · exact ⟨_, List.mem_cons_self _ _, h0 ▸ hab⟩
    · obtain ⟨a, ha, hs⟩ := ih b h0
      exact ⟨a, List.mem_cons_of_mem _ ha, hs⟩

theorem idsOf_eq_of_forall₂ {xs ys : List Account}
    (h : List.Forall₂ SameShape xs ys) : idsOf xs = idsOf ys := by
  induction h with
  | nil => rfl
  | cons hab _ ih =>
    simp only [idsOf, List.map_cons] at ih ⊢
    rw [hab.id_eq, ih]

/-- Transport of any property of the id and weight sum along SameShape. -/
theorem forall₂_sameShape_transport {Q : String → ℚ → Prop} {xs ys : List Account}
    (h : List.Forall₂ SameShape xs ys) (hP : ∀ a ∈ xs, Q a.id (weightSum a)) :
    ∀ b ∈ ys, Q b.id (weightSum b) := by
  intro b hb
  obtain ⟨a, ha, hs⟩ := forall₂_sameShape_mem h b hb
  have := hP a ha
  rwa [hs.id_eq, show weightSum a = weightSum b from by unfold weightSum; rw [hs.alloc_eq]]
    at this

theorem WF_of_forall₂ {xs ys : List Account} (h : List.Forall₂ SameShape xs ys)
    (hwf : WF xs) : WF ys := by
  obtain ⟨hnd, hal⟩ := hwf
  refine ⟨idsOf_eq_of_forall₂ h ▸ hnd, fun b hb p hp => ?_⟩
  obtain ⟨a, ha, hs⟩ := forall₂_sameShape_mem h b hb
  have := hal a ha p (hs.alloc_eq ▸ hp)
  exact ⟨this.1, idsOf_eq_of_forall₂ h ▸ this.2⟩

theorem balSum_nil : balSum [] = 0 := rfl

theorem balSum_cons (a : Account) (t : List Account) :
    balSum (a :: t) = a.balance + balSum t := by
  simp [balSum]

/-- Clamping rewrites the balance by removing exactly the overflow. -/
theorem min_eq_sub_overflow (b m : ℚ) : min b m = b - max 0 (b - m) := by
  rcases le_total b m with h | h
  · rw [min_eq_left h, max_eq_left (by linarith)]
    ring
  · rw [min_eq_right h, max_eq_right (by linarith)]
    ring

theorem balancesOf_sum (xs : List Account) :
    ((balancesOf xs).map Prod.snd).sum = balSum xs := by
  unfold balancesOf balSum
  rw [List.map_map]
  rfl

theorem overflowEntries_sum (xs : List Account) :
    ((overflowEntries xs).map Prod.snd).sum = totalOverflowOf xs := by
  unfold overflowEntries totalOverflowOf
  induction xs with
  | nil => rfl
  | cons a t ih =>
    simp only [List.filterMap_cons, List.map_cons, List.sum_cons]
    split
    · next heq =>
      have : max 0 (a.balance - a.maxThreshold) = 0 := by
        by_contra hc
        have hpos : max 0 (a.balance - a.maxThreshold) > 0 :=
          lt_of_le_of_ne (le_max_left _ _) (Ne.symm hc)
        simp only [hpos, if_pos] at heq
        cases heq
      rw [ih, this, zero_add]
    · next b heq =>
      have hpos : max 0 (a.balance - a.maxThreshold) > 0 := by
        by_contra hc
        rw [if_neg hc] at heq
        cases heq
      rw [if_pos hpos] at heq
      injection heq with heq
      subst heq
      simp only [List.map_cons, List.sum_cons]
      rw [ih]

theorem overflowEntries_nonneg (xs : List Account) :
    ∀ q ∈ overflowEntries xs, 0 ≤ q.2 := by
  intro q hq
  unfold overflowEntries at hq
  obtain ⟨a, _, ha⟩ := List.mem_filterMap.mp hq
  dsimp only at ha
  split_ifs at ha with h
  injection ha with ha
  subst ha
  exact le_of_lt h

theorem overflowEntries_mem_idsOf (xs : List Account) :
    ∀ q ∈ overflowEntries xs, q.1 ∈ idsOf xs := by
  intro q hq
  unfold overflowEntries at hq
  obtain ⟨a, hmem, ha⟩ := List.mem_filterMap.mp hq
  dsimp only at ha
  split_ifs at ha with h
  injection ha with ha
  subst ha
  exact List.mem_map.mpr ⟨a, hmem, rfl⟩

theorem clampToMax_shape (a : Account) : SameShape a (clampToMax a) := by
  rw [clampToMax_eq]
  exact ⟨rfl, rfl, rfl, rfl, rfl⟩

theorem clampToMax_balance (a : Account) :
    (clampToMax a).balance = min a.balance a.maxThreshold := by
  rw [clampToMax_eq]

theorem balSum_clamp (xs : List Account) :
    balSum (xs.map clampToMax) = balSum xs - totalOverflowOf xs := by
  induction xs with
  | nil => simp [balSum, totalOverflowOf]
  | cons a t ih =>
    simp only [List.map_cons, balSum_cons, totalOverflowOf, List.sum_cons] at ih ⊢
    rw [clampToMax_balance, min_eq_sub_overflow, ih]
    ring

theorem clamp_balance_le_max (xs : List Account) :
    ∀ a ∈ xs.map clampToMax, a.balance ≤ a.maxThreshold := by
  intro b hb
  obtain ⟨a, _, rfl⟩ := List.mem_map.mp hb
  rw [clampToMax_balance, ← (clampToMax_shape a).max_eq]
  exact min_le_right _ _

end FlowFunding

namespace FlowFunding

theorem addToBalance_shape (xs : List Account) (t : String) (amt : ℚ) :
    List.Forall₂ SameShape xs (addToBalance xs t amt) :=
  forall₂_map_self _ (fun a => by
    split_ifs <;> exact ⟨rfl, rfl, rfl, rfl, rfl⟩) xs

theorem addToBalance_grows (xs : List Account) (t : String) (amt : ℚ) (h : 0 ≤ amt) :
    List.Forall₂ Grows xs (addToBalance xs t amt) :=
  forall₂_map_self _ (fun a => by
    split_ifs with hc
    · exact ⟨⟨rfl, rfl, rfl, rfl, rfl⟩, by show a.balance ≤ a.balance + amt; linarith⟩
    · exact grows_self a) xs

theorem addToBalance_balSum (xs : List Account) (t : String) (amt : ℚ) :
    balSum (addToBalance xs t amt) = balSum xs + ((idsOf xs).count t : ℚ) * amt := by
  induction xs with
  | nil => simp [addToBalance, balSum, idsOf]
  | cons a tl ih =>
    by_cases h : a.id = t
    · simp only [addToBalance, List.map_cons, if_pos h, balSum_cons] at ih ⊢
      rw [ih]
      have hc : (idsOf (a :: tl)).count t = (idsOf tl).count t + 1 := by
        simp [idsOf, List.count_cons, h]
      rw [hc]
      push_cast
      ring
    · simp only [addToBalance, List.map_cons, if_neg h, balSum_cons] at ih ⊢
      rw [ih]
      have hne : ¬ t = a.id := fun hcontra => h hcontra.symm
      have hc : (idsOf (a :: tl)).count t = (idsOf tl).count t := by
        simp only [idsOf, List.map_cons, List.count_cons]
        simp [hne, h]
      rw [hc]
      ring

theorem addToBalance_balSum_le (xs : List Account) (t : String) (amt : ℚ)
    (hnd : (idsOf xs).Nodup) (h : 0 ≤ amt) :
    balSum (addToBalance xs t amt) ≤ balSum xs + amt := by
  rw [addToBalance_balSum]
  have hc : ((idsOf xs).count t : ℚ) ≤ 1 := by
    exact_mod_cast List.nodup_iff_count_le_one.mp hnd t
  have := mul_le_of_le_one_left h hc
  linarith

theorem addToBalance_balSum_of_mem (xs : List Account) (t : String) (amt : ℚ)
    (hnd : (idsOf xs).Nodup) (hmem : t ∈ idsOf xs) :
    balSum (addToBalance xs t amt) = balSum xs + amt := by
  rw [addToBalance_balSum, List.count_eq_one_of_mem hnd hmem]
  push_cast
  ring

theorem findAccount_isSome_iff (xs : List Account) (id : String) :
    (findAccount xs id).isSome ↔ id ∈ idsOf xs := by
  unfold findAccount
  rw [List.find?_isSome]
  constructor
  · rintro ⟨a, ha, pa⟩
    exact List.mem_map.mpr ⟨a, ha, of_decide_eq_true pa⟩
  · rintro hm
    obtain ⟨a, ha, rfl⟩ := List.mem_map.mp hm
    exact ⟨a, ha, by simp⟩

theorem findAccount_mem {xs : List Account} {id : String} {a : Account}
    (h : findAccount xs id = some a) : a ∈ xs ∧ a.id = id := by
  refine ⟨List.mem_of_find?_eq_some h, ?_⟩
  have := List.find?_some h
  simpa using this

theorem distributeToTargets_nil (s : String) (o W : ℚ)
    (st : List Account × List (String × ℚ)) :
    distributeToTargets s o W [] st = st := rfl

theorem distributeToTargets_cons (s : String) (o W : ℚ) (p : String × ℚ)
    (rest : List (String × ℚ)) (st : List Account × List (String × ℚ)) :
    distributeToTargets s o W (p :: rest) st =
      distributeToTargets s o W rest
        (if (findAccount st.1 p.1).isSome then
          (addToBalance st.1 p.1 (o * (p.2 / W)),
           st.2 ++ [(s ++ "->" ++ p.1, o * (p.2 / W))])
        else st) := rfl

theorem distributeToTargets_shape (s : String) (o W : ℚ) :
    ∀ (allocs : List (String × ℚ)) (st : List Account × List (String × ℚ)),
      List.Forall₂ SameShape st.1 (distributeToTargets s o W allocs st).1 := by
  intro allocs
  induction allocs with
  | nil => intro st; exact forall₂_account_refl sameShape_self st.1
  | cons p rest ih =>
    intro st
    rw [distributeToTargets_cons]
    split_ifs with hf
    · exact @forall₂_account_trans SameShape (fun _ _ _ h1 h2 => sameShape_trans h1 h2)
        _ _ _ (addToBalance_shape st.1 p.1 (o * (p.2 / W)))
        (ih (addToBalance st.1 p.1 (o * (p.2 / W)),
          st.2 ++ [(s ++ "->" ++ p.1, o * (p.2 / W))]))
    · exact ih st

theorem distributeToTargets_grows (s : String) (o W : ℚ) (ho : 0 ≤ o) (hW : 0 < W) :
    ∀ (allocs : List (String × ℚ)) (st : List Account × List (String × ℚ)),
      (∀ p ∈ allocs, 0 ≤ p.2) →
      List.Forall₂ Grows st.1 (distributeToTargets s o W allocs st).1 := by
  intro allocs
  induction allocs with
  | nil => intro st _; exact forall₂_account_refl grows_self st.1
  | cons p rest ih =>
    intro st hw
    rw [distributeToTargets_cons]
    have hamt : 0 ≤ o * (p.2 / W) :=
      mul_nonneg ho (div_nonneg (hw p (by simp)) hW.le)
    split_ifs with hf
    · exact @forall₂_account_trans Grows (fun _ _ _ h1 h2 => grows_trans h1 h2)
        _ _ _ (addToBalance_grows st.1 p.1 (o * (p.2 / W)) hamt)
        (ih (addToBalance st.1 p.1 (o * (p.2 / W)),
          st.2 ++ [(s ++ "->" ++ p.1, o * (p.2 / W))])
          (fun q hq => hw q (by simp [hq])))
    · exact ih st (fun q hq => hw q (by simp [hq]))

theorem distributeToTargets_balSum_le (s : String) (o W : ℚ) (ho : 0 ≤ o) (hW : 0 < W) :
    ∀ (allocs : List (String × ℚ)) (st : List Account × List (String × ℚ)),
      (idsOf st.1).Nodup → (∀ p ∈ allocs, 0 ≤ p.2) →
      balSum (distributeToTargets s o W allocs st).1 ≤
        balSum st.1 + o * (((allocs.map Prod.snd).sum) / W) := by
  intro allocs
  induction allocs with
  | nil =>
    intro st _ _
    simp [distributeToTargets_nil]
  | cons p rest ih =>
    intro st hnd hw
    rw [distributeToTargets_cons]
    have hamt : 0 ≤ o * (p.2 / W) :=
      mul_nonneg ho (div_nonneg (hw p (by simp)) hW.le)
    have hsplit : o * (((p :: rest).map Prod.snd).sum / W) =
        o * (p.2 / W) + o * ((rest.map Prod.snd).sum / W) := by
      simp only [List.map_cons, List.sum_cons]
      ring
    split_ifs with hf
    · have hnd2 : (idsOf (addToBalance st.1 p.1 (o * (p.2 / W)))).Nodup := by
        rw [← idsOf_eq_of_forall₂ (addToBalance_shape st.1 p.1 _)]
        exact hnd
      have h1 := ih (addToBalance st.1 p.1 (o * (p.2 / W)),
        st.2 ++ [(s ++ "->" ++ p.1, o * (p.2 / W))]) hnd2
        (fun q hq => hw q (by simp [hq]))
      have h2 := addToBalance_balSum_le st.1 p.1 (o * (p.2 / W)) hnd hamt
      dsimp only at h1
      linarith
    · have h1 := ih st hnd (fun q hq => hw q (by simp [hq]))
      linarith

theorem distributeToTargets_balSum_eq (s : String) (o W : ℚ) :
    ∀ (allocs : List (String × ℚ)) (st : List Account × List (String × ℚ)),
      (idsOf st.1).Nodup → (∀ p ∈ allocs, p.1 ∈ idsOf st.1) →
      balSum (distributeToTargets s o W allocs st).1 =
        balSum st.1 + o * (((allocs.map Prod.snd).sum) / W) := by
  intro allocs
  induction allocs with
  | nil =>
    intro st _ _
    simp [distributeToTargets_nil]
  | cons p rest ih =>
    intro st hnd hmem
    rw [distributeToTargets_cons]
    have hf : (findAccount st.1 p.1).isSome :=
      (findAccount_isSome_iff st.1 p.1).mpr (hmem p (by simp))
    rw [if_pos hf]
    have hids : idsOf (addToBalance st.1 p.1 (o * (p.2 / W))) = idsOf st.1 :=
      (idsOf_eq_of_forall₂ (addToBalance_shape st.1 p.1 _)).symm
    have h1 := ih (addToBalance st.1 p.1 (o * (p.2 / W)),
      st.2 ++ [(s ++ "->" ++ p.1, o * (p.2 / W))])
      (by rw [show idsOf (addToBalance st.1 p.1 (o * (p.2 / W))) = idsOf st.1 from hids]
          exact hnd)
      (fun q hq => by rw [show idsOf (addToBalance st.1 p.1 (o * (p.2 / W))) = idsOf st.1
          from hids]; exact hmem q (by simp [hq]))
    have h2 := addToBalance_balSum_of_mem st.1 p.1 (o * (p.2 / W)) hnd (hmem p (by simp))
    dsimp only at h1
    rw [h1, h2]
    simp only [List.map_cons, List.sum_cons]
    ring

end FlowFunding

namespace FlowFunding

theorem totalOverflowOf_nil : totalOverflowOf [] = 0 := rfl

theorem totalOverflowOf_cons (a : Account) (t : List Account) :
    totalOverflowOf (a :: t) = max 0 (a.balance - a.maxThreshold) + totalOverflowOf t := by
  simp [totalOverflowOf]

theorem weightSum_nonneg_of_WF {xs : List Account} (hwf : WF xs) {a : Account}
    (ha : a ∈ xs) : 0 ≤ weightSum a := by
  unfold weightSum
  apply List.sum_nonneg
  intro x hx
  obtain ⟨p, hp, rfl⟩ := List.mem_map.mp hx
  exact (hwf.2 a ha p hp).1

theorem redistributeStep_shape (st : List Account × List (String × ℚ)) (q : String × ℚ) :
    List.Forall₂ SameShape st.1 (redistributeStep st q).1 := by
  unfold redistributeStep
  split
  · exact forall₂_account_refl sameShape_self st.1
  · next source heq =>
    dsimp only
    split_ifs with hW
    · exact forall₂_account_refl sameShape_self st.1
    · exact distributeToTargets_shape q.1 q.2 (weightSum source) source.allocations st

theorem redistributeStep_grows (st : List Account × List (String × ℚ)) (q : String × ℚ)
    (hwf : WF st.1) (hq : 0 ≤ q.2) :
    List.Forall₂ Grows st.1 (redistributeStep st q).1 := by
  unfold redistributeStep
  split
  · exact forall₂_account_refl grows_self st.1
  · next source heq =>
    have hsm := findAccount_mem heq
    dsimp only
    split_ifs with hW
    · exact forall₂_account_refl grows_self st.1
    · have hWpos : 0 < weightSum source :=
        lt_of_le_of_ne (weightSum_nonneg_of_WF hwf hsm.1) (Ne.symm hW)
      exact distributeToTargets_grows q.1 q.2 (weightSum source) hq hWpos
        source.allocations st (fun p hp => (hwf.2 source hsm.1 p hp).1)

theorem redistributeStep_balSum_le (st : List Account × List (String × ℚ))
    (q : String × ℚ) (hwf : WF st.1) (hq : 0 ≤ q.2) :
    balSum (redistributeStep st q).1 ≤ balSum st.1 + q.2 := by
  unfold redistributeStep
  split
  · linarith
  · next source heq =>
    have hsm := findAccount_mem heq
    dsimp only
    split_ifs with hW
    · linarith
    · have hWpos : 0 < weightSum source :=
        lt_of_le_of_ne (weightSum_nonneg_of_WF hwf hsm.1) (Ne.symm hW)
      have h := distributeToTargets_balSum_le q.1 q.2 (weightSum source) hq hWpos
        source.allocations st hwf.1 (fun p hp => (hwf.2 source hsm.1 p hp).1)
      have hself : ((source.allocations.map Prod.snd).sum) / weightSum source = 1 :=
        div_self hW
      rw [hself, mul_one] at h
      exact h

theorem redistributeStep_balSum_eq (st : List Account × List (String × ℚ))
    (q : String × ℚ) (hwf : WF st.1) (hmem : q.1 ∈ idsOf st.1)
    (hwne : ∀ a ∈ st.1, a.id = q.1 → weightSum a ≠ 0) :
    balSum (redistributeStep st q).1 = balSum st.1 + q.2 := by
  unfold redistributeStep
  split
  · next heq =>
    exfalso
    have hsome := (findAccount_isSome_iff st.1 q.1).mpr hmem
    rw [heq] at hsome
    cases hsome
  · next source heq =>
    have hsm := findAccount_mem heq
    dsimp only
    split_ifs with hW
    · exact absurd hW (hwne source hsm.1 hsm.2)
    · have h := distributeToTargets_balSum_eq q.1 q.2 (weightSum source)
        source.allocations st hwf.1 (fun p hp => (hwf.2 source hsm.1 p hp).2)
      have hself : ((source.allocations.map Prod.snd).sum) / weightSum source = 1 :=
        div_self hW
      rw [hself, mul_one] at h
      exact h

theorem redistribute_foldl_shape (ofl : List (String × ℚ)) :
    ∀ st : List Account × List (String × ℚ),
      List.Forall₂ SameShape st.1 ((ofl.foldl redistributeStep st).1) := by
  induction ofl with
  | nil => intro st; exact forall₂_account_refl sameShape_self st.1
  | cons q rest ih =>
    intro st
    rw [List.foldl_cons]
    exact @forall₂_account_trans SameShape (fun _ _ _ h1 h2 => sameShape_trans h1 h2)
      _ _ _ (redistributeStep_shape st q) (ih (redistributeStep st q))

theorem redistribute_foldl_grows (ofl : List (String × ℚ)) :
    ∀ st : List Account × List (String × ℚ), WF st.1 → (∀ q ∈ ofl, 0 ≤ q.2) →
      List.Forall₂ Grows st.1 ((ofl.foldl redistributeStep st).1) := by
  induction ofl with
  | nil => intro st _ _; exact forall₂_account_refl grows_self st.1
  | cons q rest ih =>
    intro st hwf hq
    rw [List.foldl_cons]
    have hstep := redistributeStep_grows st q hwf (hq q (by simp))
    have hwf2 : WF (redistributeStep st q).1 :=
      WF_of_forall₂ (redistributeStep_shape st q) hwf
    exact @forall₂_account_trans Grows (fun _ _ _ h1 h2 => grows_trans h1 h2)
      _ _ _ hstep (ih (redistributeStep st q) hwf2 (fun p hp => hq p (by simp [hp])))

theorem redistribute_foldl_balSum_le (ofl : List (String × ℚ)) :
    ∀ st : List Account × List (String × ℚ), WF st.1 → (∀ q ∈ ofl, 0 ≤ q.2) →
      balSum ((ofl.foldl redistributeStep st).1) ≤ balSum st.1 + (ofl.map Prod.snd).sum := by
  induction ofl with
  | nil => intro st _ _; simp
  | cons q rest ih =>
    intro st hwf hq
    rw [List.foldl_cons]
    have hwf2 : WF (redistributeStep st q).1 :=
      WF_of_forall₂ (redistributeStep_shape st q) hwf
    have h1 := ih (redistributeStep st q) hwf2 (fun p hp => hq p (by simp [hp]))
    have h2 := redistributeStep_balSum_le st q hwf (hq q (by simp))
    simp only [List.map_cons, List.sum_cons]
    linarith

theorem redistribute_foldl_balSum_eq (ofl : List (String × ℚ)) :
    ∀ st : List Account × List (String × ℚ), WF st.1 →
      (∀ q ∈ ofl, q.1 ∈ idsOf st.1 ∧ ∀ a ∈ st.1, a.id = q.1 → weightSum a ≠ 0) →
      balSum ((ofl.foldl redistributeStep st).1) = balSum st.1 + (ofl.map Prod.snd).sum := by
  induction ofl with
  | nil => intro st _ _; simp
  | cons q rest ih =>
    intro st hwf hq
    rw [List.foldl_cons]
    have hwf2 : WF (redistributeStep st q).1 :=
      WF_of_forall₂ (redistributeStep_shape st q) hwf
    have hids : idsOf st.1 = idsOf (redistributeStep st q).1 :=
      idsOf_eq_of_forall₂ (redistributeStep_shape st q)
    have h1 := ih (redistributeStep st q) hwf2 (fun p hp =>
      ⟨hids ▸ (hq p (by simp [hp])).1,
       @forall₂_sameShape_transport (fun i w => i = p.1 → w ≠ 0) st.1
         (redistributeStep st q).1 (redistributeStep_shape st q)
         (hq p (by simp [hp])).2⟩)
    have h2 := redistributeStep_balSum_eq st q hwf (hq q (by simp)).1
      (hq q (by simp)).2
    simp only [List.map_cons, List.sum_cons]
    rw [h1, h2]
    ring

theorem totalOverflowOf_le_of_grows :
    ∀ {xs ys : List Account}, List.Forall₂ Grows xs ys →
      (∀ a ∈ xs, a.balance ≤ a.maxThreshold) →
      totalOverflowOf ys ≤ balSum ys - balSum xs := by
  intro xs ys h
  induction h with
  | nil => intro _; simp [totalOverflowOf, balSum]
  | @cons a b l1 l2 hab htl ih =>
    intro hcl
    have h2 := ih (fun x hx => hcl x (List.mem_cons_of_mem _ hx))
    have hmax : b.maxThreshold = a.maxThreshold := hab.shape.max_eq.symm
    have hca := hcl a (List.mem_cons_self _ _)
    have h1 : max 0 (b.balance - b.maxThreshold) ≤ b.balance - a.balance := by
      apply max_le
      · linarith [hab.le]
      · rw [hmax]
        linarith
    rw [totalOverflowOf_cons, balSum_cons, balSum_cons]
    linarith

/-- One full round of Phase B never increases the total overflow: the
clamped balances sit at or below the maximum, every account only receives
funds, and at most the redistributed overflow enters the system. -/
theorem totalOverflow_step_le (xs : List Account) (hwf : WF xs) :
    totalOverflowOf (redistributeOverflow (xs.map clampToMax) (overflowEntries xs)).1 ≤
      totalOverflowOf xs := by
  have hshape : List.Forall₂ SameShape xs (xs.map clampToMax) :=
    forall₂_map_self _ clampToMax_shape xs
  have hwfc : WF (xs.map clampToMax) := WF_of_forall₂ hshape hwf
  have hofl := overflowEntries_nonneg xs
  unfold redistributeOverflow
  have hgrows := redistribute_foldl_grows (overflowEntries xs) (xs.map clampToMax, []) hwfc hofl
  have hle := redistribute_foldl_balSum_le (overflowEntries xs) (xs.map clampToMax, []) hwfc hofl
  have hbound := totalOverflowOf_le_of_grows hgrows (clamp_balance_le_max xs)
  have hclamp := balSum_clamp xs
  have hsum := overflowEntries_sum xs
  dsimp only at hle hbound
  linarith

end FlowFunding

namespace FlowFunding

theorem step_shape (xs : List Account) :
    List.Forall₂ SameShape xs
      (redistributeOverflow (xs.map clampToMax) (overflowEntries xs)).1 :=
  @forall₂_account_trans SameShape (fun _ _ _ h1 h2 => sameShape_trans h1 h2) _ _ _
    (forall₂_map_self _ clampToMax_shape xs)
    (redistribute_foldl_shape (overflowEntries xs) (xs.map clampToMax, []))

theorem runLoop_head_totalOverflow (eps : ℚ) (fuel i : ℕ) (xs : List Account)
    (r : IterationResult) (rest : List IterationResult)
    (h : (runLoop eps (fuel + 1) i xs).2.1 = r :: rest) :
    r.totalOverflow = totalOverflowOf xs := by
  unfold runLoop at h
  dsimp only at h
  split_ifs at h with hc
  · injection h with h1 h2
    rw [← h1]
    exact overflowEntries_sum xs
  · injection h with h1 h2
    rw [← h1]
    exact overflowEntries_sum xs

theorem runLoop_chain (eps : ℚ) :
    ∀ (fuel i : ℕ) (xs : List Account), WF xs →
      List.Chain' (fun r1 r2 => r2.totalOverflow ≤ r1.totalOverflow)
        (runLoop eps fuel i xs).2.1 := by
  intro fuel
  induction fuel with
  | zero => intro i xs _; simp [runLoop]
  | succ f ih =>
    intro i xs hwf
    unfold runLoop
    dsimp only
    split_ifs with hc
    · simp
    · rw [List.chain'_cons']
      have hwf2 : WF (redistributeOverflow (xs.map clampToMax) (overflowEntries xs)).1 :=
        WF_of_forall₂ (step_shape xs) hwf
    
      refine ⟨?_, ih (i + 1) _ hwf2⟩
      intro r hr
      cases f with
      | zero => simp [runLoop] at hr
      | succ f2 =>
        obtain ⟨rest2, hrest⟩ : ∃ t,
            (runLoop eps (f2 + 1) (i + 1)
              (redistributeOverflow (calculateOverflow xs).1 (calculateOverflow xs).2).1).2.1 =
              r :: t := by
          cases hh : (runLoop eps (f2 + 1) (i + 1)
              (redistributeOverflow (calculateOverflow xs).1 (calculateOverflow xs).2).1).2.1 with
          | nil => rw [hh] at hr; cases hr
          | cons a t =>
            rw [hh] at hr
            simp only [List.head?_cons, Option.mem_some_iff] at hr
            exact ⟨t, by rw [hr]⟩
        have hhead := runLoop_head_totalOverflow eps f2 (i + 1) _ r rest2 hrest
        have hstep := totalOverflow_step_le xs hwf
        have hsum := overflowEntries_sum xs
        rw [hhead]
        dsimp only
        exact le_of_le_of_eq hstep hsum.symm

end FlowFunding

namespace FlowFunding

/-- A network the validator accepts, with unique ids, satisfies the
structural facts of WF: non-negative weights and resolvable targets. -/
theorem WF_of_valid (accounts : List Account)
    (hv : (validateNetwork accounts).valid = true)
    (hnd : (idsOf accounts).Nodup) : WF accounts := by
  refine ⟨hnd, fun a ha p hp => ?_⟩
  have hnot : ¬ ((validateNetwork accounts).valid = false) := by simp [hv]
  rw [validateNetwork_invalid_iff] at hnot
  push_neg at hnot
  have hAF := hnot.2 a ha
  unfold AmendedFatal at hAF
  push_neg at hAF
  obtain ⟨-, -, -, -, h5, -⟩ := hAF
  have hp5 := h5 p hp
  refine ⟨hp5.1, ?_⟩
  have hcont := hp5.2.2.1
  simpa using hcont

theorem fillMinimums_shape (xs : List Account) :
    List.Forall₂ SameShape xs (fillMinimums xs) :=
  forall₂_map_self _ (fun a => by
    split_ifs
    · exact ⟨rfl, rfl, rfl, rfl, rfl⟩
    · exact sameShape_self a) xs

theorem distributeInitial_shape (xs : List Account) (f : ℚ) :
    List.Forall₂ SameShape xs (distributeInitial xs f) := by
  unfold distributeInitial
  dsimp only
  split_ifs with h1 h2 h3
  · exact forall₂_map_self _ (fun a => by
      split_ifs
      · exact ⟨rfl, rfl, rfl, rfl, rfl⟩
      · exact sameShape_self a) xs
  · exact fillMinimums_shape xs
  · exact fillMinimums_shape xs
  · exact @forall₂_account_trans SameShape (fun _ _ _ g1 g2 => sameShape_trans g1 g2)
      _ _ _ (fillMinimums_shape xs)
      (forall₂_map_self _ (fun a => by
        split_ifs
        · exact ⟨rfl, rfl, rfl, rfl, rfl⟩
        · exact sameShape_self a) (fillMinimums xs))

end FlowFunding

/-- C6: monotonic overflow decay in the discrete engine.  For every valid
network with unique account ids whose per-account weight sums stay at or
below 100 and any run of the engine, consecutive recorded rounds carry
non-increasing totalOverflow values (no funds are injected inside the
Phase B loop). -/
theorem totalOverflow_monotone_decay
    (accounts : List FlowFunding.Account) (funding eps : ℚ) (maxIter : ℕ)
    (r : FlowFunding.DistributionResult) (fin : List FlowFunding.Account)
    (hrun : FlowFunding.runDistribution accounts funding maxIter eps = .ok (r, fin))
    (hnodup : (FlowFunding.idsOf accounts).Nodup)
    (hsums : ∀ a ∈ accounts, FlowFunding.weightSum a ≤ 100)
    (k : ℕ) (hk : k + 1 < r.iterations.length) :
    (r.iterations.get ⟨k + 1, hk⟩).totalOverflow ≤
      (r.iterations.get ⟨k, by omega⟩).totalOverflow := by
  unfold FlowFunding.runDistribution at hrun
  dsimp only at hrun
  split_ifs at hrun with hv
  · injection hrun with hrun
    injection hrun with hA hB
    subst hA
    have hwf : FlowFunding.WF (FlowFunding.distributeInitial accounts funding) :=
      FlowFunding.WF_of_forall₂ (FlowFunding.distributeInitial_shape accounts funding)
        (FlowFunding.WF_of_valid accounts hv hnodup)
    have hchain := FlowFunding.runLoop_chain eps maxIter 0
      (FlowFunding.distributeInitial accounts funding) hwf
    have hkk := hk
    dsimp only at hkk ⊢
    exact List.chain'_iff_get.mp hchain k (by omega)

/-- Witness for C6: one account funded to 15 against a capacity of 10 with
no outgoing allocations records overflow 5 in round 0 (lost by design) and
overflow 0 in the converged round 1, a non-increasing sequence. -/
theorem totalOverflow_monotone_decay_witness :
    FlowFunding.runDistribution
      [{ id := "A", name := "A", balance := 0, minThreshold := 0, maxThreshold := 10,
         allocations := [] }] 15 5 (1 / 100) =
      .ok
        ({ initialBalances := [("A", 0)], finalBalances := [("A", 10)],
           iterations :=
             [{ iteration := 0, balances := [("A", 10)], overflows := [("A", 5)],
                totalOverflow := 5, flows := [], converged := false },
              { iteration := 1, balances := [("A", 10)], overflows := [],
                totalOverflow := 0, flows := [], converged := true }],
           converged := true, totalFunding := 15, iterationCount := 2 },
         [{ id := "A", name := "A", balance := 10, minThreshold := 0, maxThreshold := 10,
            allocations := [] }]) ∧
    (FlowFunding.idsOf
      [{ id := "A", name := "A", balance := 0, minThreshold := 0, maxThreshold := 10,
         allocations := [] }]).Nodup ∧
    (0 : ℚ) ≤ 5 := by
  have hrun : FlowFunding.runDistribution
      [{ id := "A", name := "A", balance := 0, minThreshold := 0, maxThreshold := 10,
         allocations := [] }] 15 5 (1 / 100) =
      .ok
        ({ initialBalances := [("A", 0)], finalBalances := [("A", 10)],
           iterations :=
             [{ iteration := 0, balances := [("A", 10)], overflows := [("A", 5)],
                totalOverflow := 5, flows := [], converged := false },
              { iteration := 1, balances := [("A", 10)], overflows := [],
                totalOverflow := 0, flows := [], converged := true }],
           converged := true, totalFunding := 15, iterationCount := 2 },
         [{ id := "A", name := "A", balance := 10, minThreshold := 0, maxThreshold := 10,
            allocations := [] }]) := by
    with_unfolding_all rfl
  refine ⟨hrun, by decide, ?_⟩
  exact totalOverflow_monotone_decay _ 15 (1 / 100) 5 _ _ hrun (by decide)
    (by with_unfolding_all decide) 0 (by decide)

namespace FlowFunding

theorem balSum_map_eq_add (xs : List Account) (g : Account → Account)
    (addFn : Account → ℚ) (h : ∀ a ∈ xs, (g a).balance = a.balance + addFn a) :
    balSum (xs.map g) = balSum xs + (xs.map addFn).sum := by
  induction xs with
  | nil => simp [balSum]
  | cons a t ih =>
    simp only [List.map_cons, balSum_cons, List.sum_cons]
    rw [h a (List.mem_cons_self _ _), ih (fun x hx => h x (List.mem_cons_of_mem _ hx))]
    ring

theorem shortfallOf_nonneg (a : Account) : 0 ≤ shortfallOf a := le_max_left _ _

theorem shortfallOf_pos_eq {a : Account} (h : 0 < shortfallOf a) :
    shortfallOf a = a.minThreshold - a.balance := by
  unfold shortfallOf at *
  rcases le_total (a.minThreshold - a.balance) 0 with hle | hle
  · rw [max_eq_left hle] at h
    linarith
  · exact max_eq_right hle

theorem capacityOf_nonneg (a : Account) : 0 ≤ capacityOf a := le_max_left _ _

theorem capacityOf_pos_eq {a : Account} (h : 0 < capacityOf a) :
    capacityOf a = a.maxThreshold - a.balance := by
  unfold capacityOf at *
  rcases le_total (a.maxThreshold - a.balance) 0 with hle | hle
  · rw [max_eq_left hle] at h
    linarith
  · exact max_eq_right hle

theorem fillMinimums_balSum (xs : List Account) :
    balSum (fillMinimums xs) = balSum xs + totalShortfall xs := by
  unfold fillMinimums totalShortfall
  refine balSum_map_eq_add xs _ shortfallOf (fun a _ => ?_)
  split_ifs with h
  · dsimp only
    rw [shortfallOf_pos_eq h]
    ring
  · have h0 : shortfallOf a = 0 := le_antisymm (not_lt.mp h) (shortfallOf_nonneg a)
    rw [h0]
    ring

/-- Phase A conserves the funding exactly, except in the dropped-remainder
case excluded by the capacity hypothesis. -/
theorem distributeInitial_balSum (xs : List Account) (f : ℚ) (hf : 0 ≤ f)
    (hcap : totalShortfall xs < f → totalCapacity (fillMinimums xs) ≠ 0) :
    balSum (distributeInitial xs f) = balSum xs + f := by
  unfold distributeInitial
  dsimp only
  split_ifs with h1 h2 h3
  · have hts : 0 < totalShortfall xs := lt_of_le_of_lt hf h1
    rw [balSum_map_eq_add xs _ (fun a => shortfallOf a * (f / totalShortfall xs))
      (fun a _ => ?_)]
    · rw [List.sum_map_mul_right]
      have : (xs.map shortfallOf).sum = totalShortfall xs := rfl
      rw [this]
      field_simp
    · split_ifs with hsf
      · dsimp only
        ring
      · have h0 : shortfallOf a = 0 := le_antisymm (not_lt.mp hsf) (shortfallOf_nonneg a)
        dsimp only
        rw [h0]
        ring
  · have hfeq : f = totalShortfall xs := le_antisymm (by linarith) (not_lt.mp h1)
    rw [fillMinimums_balSum, hfeq]
  · exact absurd h3 (hcap (by linarith [not_le.mp h2]))
  · rw [balSum_map_eq_add (fillMinimums xs) _
      (fun a => capacityOf a * ((f - totalShortfall xs) / totalCapacity (fillMinimums xs)))
      (fun a _ => ?_)]
    · rw [List.sum_map_mul_right]
      have hcs : ((fillMinimums xs).map capacityOf).sum = totalCapacity (fillMinimums xs) :=
        rfl
      rw [hcs, fillMinimums_balSum]
      have hc0 : totalCapacity (fillMinimums xs) ≠ 0 := h3
      field_simp
    · split_ifs with hcp
      · dsimp only
        ring
      · have h0 : capacityOf a = 0 := le_antisymm (not_lt.mp hcp) (capacityOf_nonneg a)
        dsimp only
        rw [h0]
        ring

end FlowFunding

namespace FlowFunding

theorem runLoop_conservation (eps : ℚ) :
    ∀ (fuel i : ℕ) (xs : List Account), WF xs →
      (∀ rec ∈ (runLoop eps fuel i xs).2.1, ∀ q ∈ rec.overflows,
        ∀ a ∈ xs, a.id = q.1 → 100 ≤ weightSum a) →
      ∀ rec ∈ (runLoop eps fuel i xs).2.1,
        (rec.balances.map Prod.snd).sum + rec.totalOverflow = balSum xs := by
  intro fuel
  induction fuel with
  | zero =>
    intro i xs _ _ rec hrec
    simp [runLoop] at hrec
  | succ f ih =>
    intro i xs hwf hw rec hrec
    unfold runLoop at hrec hw
    dsimp only [calculateOverflow] at hrec hw
    split_ifs at hrec hw with hc
    · rcases List.mem_singleton.mp hrec with rfl
      dsimp only
      rw [balancesOf_sum, balSum_clamp, overflowEntries_sum]
      ring
    · rcases List.mem_cons.mp hrec with rfl | h0
      · dsimp only
        rw [balancesOf_sum, balSum_clamp, overflowEntries_sum]
        ring
      · have hshape0 : List.Forall₂ SameShape xs (xs.map clampToMax) :=
          forall₂_map_self _ clampToMax_shape xs
        have hwfc : WF (xs.map clampToMax) := WF_of_forall₂ hshape0 hwf
        have hwf2 : WF (redistributeOverflow (xs.map clampToMax) (overflowEntries xs)).1 :=
          WF_of_forall₂ (step_shape xs) hwf
        have hw0 := hw _ (List.mem_cons_self _ _)
        dsimp only at hw0
        have hcond : ∀ q ∈ overflowEntries xs, q.1 ∈ idsOf (xs.map clampToMax) ∧
            ∀ a ∈ xs.map clampToMax, a.id = q.1 → weightSum a ≠ 0 := by
          intro q hq
          constructor
          · rw [← idsOf_eq_of_forall₂ hshape0]
            exact overflowEntries_mem_idsOf xs q hq
          · intro a ha hid
            have htr := @forall₂_sameShape_transport
              (fun idv w => idv = q.1 → 100 ≤ w) _ _ hshape0
              (fun b hb hbid => hw0 q hq b hb hbid)
            have h100 := htr a ha hid
            intro h0
            rw [h0] at h100
            norm_num at h100
        have heq := redistribute_foldl_balSum_eq (overflowEntries xs)
          (xs.map clampToMax, []) hwfc hcond
        dsimp only at heq
        have hclampsum := balSum_clamp xs
        have hos := overflowEntries_sum xs
        have hbal : balSum (redistributeOverflow (xs.map clampToMax)
            (overflowEntries xs)).1 = balSum xs := by
          unfold redistributeOverflow
          linarith
        have hw2 : ∀ rec2 ∈ (runLoop eps f (i + 1)
              (redistributeOverflow (xs.map clampToMax) (overflowEntries xs)).1).2.1,
            ∀ q ∈ rec2.overflows,
            ∀ a ∈ (redistributeOverflow (xs.map clampToMax) (overflowEntries xs)).1,
              a.id = q.1 → 100 ≤ weightSum a := by
          intro rec2 h2 q hq
          exact @forall₂_sameShape_transport (fun idv w => idv = q.1 → 100 ≤ w) _ _
            (step_shape xs) (hw rec2 (List.mem_cons_of_mem _ h2) q hq)
        have hrc := ih (i + 1)
          (redistributeOverflow (xs.map clampToMax) (overflowEntries xs)).1 hwf2 hw2 rec h0
        rw [hbal] at hrc
        exact hrc

end FlowFunding

/-- C2 (amended): conservation in the discrete engine.  For every valid
network with unique account ids run with non-negative funding, if every
account that ever records positive overflow has outgoing weights summing to
at least 100 and Phase A does not hit the zero-capacity fallback (whenever
funding strictly exceeds the total shortfall, the remaining capacity after
filling minimums is non-zero), then every recorded round satisfies, exactly
over the rationals, recorded balances plus overflow in transit equals the
initial total balance plus the injected funding. -/
theorem runDistribution_conservation
    (accounts : List FlowFunding.Account) (funding eps : ℚ) (maxIter : ℕ)
    (r : FlowFunding.DistributionResult) (fin : List FlowFunding.Account)
    (hrun : FlowFunding.runDistribution accounts funding maxIter eps = .ok (r, fin))
    (hnodup : (FlowFunding.idsOf accounts).Nodup)
    (hfund : 0 ≤ funding)
    (hcap : FlowFunding.totalShortfall accounts < funding →
      FlowFunding.totalCapacity (FlowFunding.fillMinimums accounts) ≠ 0)
    (hw : ∀ rec ∈ r.iterations, ∀ q ∈ rec.overflows,
      ∀ a ∈ accounts, a.id = q.1 → 100 ≤ FlowFunding.weightSum a) :
    ∀ rec ∈ r.iterations,
      (rec.balances.map Prod.snd).sum + rec.totalOverflow =
        (accounts.map (fun a => a.balance)).sum + funding := by
  unfold FlowFunding.runDistribution at hrun
  dsimp only at hrun
  split_ifs at hrun with hv
  injection hrun with hrun
  injection hrun with hA hB
  subst hA
  intro rec hrec
  dsimp only at hrec hw
  have hWFa := FlowFunding.WF_of_valid accounts hv hnodup
  have hWF0 := FlowFunding.WF_of_forall₂
    (FlowFunding.distributeInitial_shape accounts funding) hWFa
  have hw0 : ∀ rec2 ∈ (FlowFunding.runLoop eps maxIter 0
        (FlowFunding.distributeInitial accounts funding)).2.1,
      ∀ q ∈ rec2.overflows,
      ∀ a ∈ FlowFunding.distributeInitial accounts funding,
        a.id = q.1 → 100 ≤ FlowFunding.weightSum a := by
    intro rec2 h2 q hq
    exact @FlowFunding.forall₂_sameShape_transport
      (fun idv w => idv = q.1 → 100 ≤ w) _ _
      (FlowFunding.distributeInitial_shape accounts funding)
      (hw rec2 h2 q hq)
  have hloop := FlowFunding.runLoop_conservation eps maxIter 0
    (FlowFunding.distributeInitial accounts funding) hWF0 hw0 rec hrec
  rw [FlowFunding.distributeInitial_balSum accounts funding hfund hcap] at hloop
  exact hloop

/-- C2 counterexample: two mutually allocating accounts already at their
maximum of 10 with funding 5.  The network is valid, no account ever
records overflow (so the weight-sum hypothesis of the claim holds
vacuously), yet the only recorded round carries total 20 while the initial
balances plus funding equal 25: the Phase A zero-capacity fallback dropped
the remainder 5, which exceeds the epsilon of 0.01. -/
theorem runDistribution_conservation_counterexample :
    (FlowFunding.validateNetwork
      [{ id := "A", name := "A", balance := 10, minThreshold := 0, maxThreshold := 10,
         allocations := [("B", 100)] },
       { id := "B", name := "B", balance := 10, minThreshold := 0, maxThreshold := 10,
         allocations := [("A", 100)] }]).valid = true ∧
    (FlowFunding.runDistribution
      [{ id := "A", name := "A", balance := 10, minThreshold := 0, maxThreshold := 10,
         allocations := [("B", 100)] },
       { id := "B", name := "B", balance := 10, minThreshold := 0, maxThreshold := 10,
         allocations := [("A", 100)] }] 5 3 (1 / 100)).map (fun pr =>
        pr.1.iterations.map (fun rec =>
          (rec.balances.map Prod.snd).sum + rec.totalOverflow)) = .ok [20] ∧
    (([{ id := "A", name := "A", balance := (10 : ℚ), minThreshold := 0, maxThreshold := 10,
         allocations := [("B", 100)] },
       { id := "B", name := "B", balance := 10, minThreshold := 0, maxThreshold := 10,
         allocations := [("A", 100)] }] : List FlowFunding.Account).map
        (fun a => a.balance)).sum + 5 = 25 ∧
    (FlowFunding.runDistribution
      [{ id := "A", name := "A", balance := 10, minThreshold := 0, maxThreshold := 10,
         allocations := [("B", 100)] },
       { id := "B", name := "B", balance := 10, minThreshold := 0, maxThreshold := 10,
         allocations := [("A", 100)] }] 5 3 (1 / 100)).map (fun pr =>
        pr.1.iterations.map (fun rec => rec.overflows.isEmpty)) = .ok [true] := by
  refine ⟨by with_unfolding_all decide, by with_unfolding_all rfl,
    by with_unfolding_all decide, by with_unfolding_all rfl⟩

/-- Witness for the amended C2: two mutually allocating accounts with
funding 25 against total capacity 20 keep oscillating at total overflow 5,
and every recorded round carries exactly the injected 25. -/
theorem runDistribution_conservation_witness :
    FlowFunding.runDistribution
      [{ id := "P", name := "P", balance := 0, minThreshold := 0, maxThreshold := 10,
         allocations := [("Q", 100)] },
       { id := "Q", name := "Q", balance := 0, minThreshold := 0, maxThreshold := 10,
         allocations := [("P", 100)] }] 25 2 (1 / 100) =
      .ok
        ({ initialBalances := [("P", 0), ("Q", 0)],
           finalBalances := [("P", 25 / 2), ("Q", 25 / 2)],
           iterations :=
             [{ iteration := 0, balances := [("P", 10), ("Q", 10)],
                overflows := [("P", 5 / 2), ("Q", 5 / 2)], totalOverflow := 5,
                flows := [("P->Q", 5 / 2), ("Q->P", 5 / 2)], converged := false },
              { iteration := 1, balances := [("P", 10), ("Q", 10)],
                overflows := [("P", 5 / 2), ("Q", 5 / 2)], totalOverflow := 5,
                flows := [("P->Q", 5 / 2), ("Q->P", 5 / 2)], converged := false }],
           converged := false, totalFunding := 25, iterationCount := 2 },
         [{ id := "P", name := "P", balance := 25 / 2, minThreshold := 0,
            maxThreshold := 10, allocations := [("Q", 100)] },
          { id := "Q", name := "Q", balance := 25 / 2, minThreshold := 0,
            maxThreshold := 10, allocations := [("P", 100)] }]) ∧
    (([("P", (10 : ℚ)), ("Q", 10)].map Prod.snd).sum + (5 : ℚ) =
      (([{ id := "P", name := "P", balance := (0 : ℚ), minThreshold := 0,
           maxThreshold := 10, allocations := [("Q", 100)] },
         { id := "Q", name := "Q", balance := 0, minThreshold := 0, maxThreshold := 10,
           allocations := [("P", 100)] }] : List FlowFunding.Account).map
          (fun a => a.balance)).sum + 25) := by
  have hrun : FlowFunding.runDistribution
      [{ id := "P", name := "P", balance := 0, minThreshold := 0, maxThreshold := 10,
         allocations := [("Q", 100)] },
       { id := "Q", name := "Q", balance := 0, minThreshold := 0, maxThreshold := 10,
         allocations := [("P", 100)] }] 25 2 (1 / 100) =
      .ok
        ({ initialBalances := [("P", 0), ("Q", 0)],
           finalBalances := [("P", 25 / 2), ("Q", 25 / 2)],
           iterations :=
             [{ iteration := 0, balances := [("P", 10), ("Q", 10)],
                overflows := [("P", 5 / 2), ("Q", 5 / 2)], totalOverflow := 5,
                flows := [("P->Q", 5 / 2), ("Q->P", 5 / 2)], converged := false },
              { iteration := 1, balances := [("P", 10), ("Q", 10)],
                overflows := [("P", 5 / 2), ("Q", 5 / 2)], totalOverflow := 5,
                flows := [("P->Q", 5 / 2), ("Q->P", 5 / 2)], converged := false }],
           converged := false, totalFunding := 25, iterationCount := 2 },
         [{ id := "P", name := "P", balance := 25 / 2, minThreshold := 0,
            maxThreshold := 10, allocations := [("Q", 100)] },
          { id := "Q", name := "Q", balance := 25 / 2, minThreshold := 0,
            maxThreshold := 10, allocations := [("P", 100)] }]) := by
    with_unfolding_all rfl
  refine ⟨hrun, ?_⟩
  exact runDistribution_conservation _ 25 (1 / 100) 2 _ _ hrun
    (by decide) (by norm_num) (fun hlt => by with_unfolding_all decide)
    (by with_unfolding_all decide)
    { iteration := 0, balances := [("P", 10), ("Q", 10)],
      overflows := [("P", 5 / 2), ("Q", 5 / 2)], totalOverflow := 5,
      flows := [("P->Q", 5 / 2), ("Q->P", 5 / 2)], converged := false }
    (by simp)

namespace FlowFunding

theorem weightSum_scale (c : ℚ) (a : Account) :
    weightSum (scaleAccount c a) = c * weightSum a := by
  unfold weightSum scaleAccount
  dsimp only
  rw [List.map_map]
  rw [show ((fun p : String × ℚ => p.2) ∘ fun p : String × ℚ => (p.1, c * p.2)) =
    (fun p : String × ℚ => c * p.2) from rfl]
  exact List.sum_map_mul_left a.allocations (fun p => p.2) c

theorem totalShortfall_scale (c : ℚ) (xs : List Account) :
    totalShortfall (scaleAccounts c xs) = totalShortfall xs := by
  unfold totalShortfall scaleAccounts
  rw [List.map_map]
  rfl

theorem fillMinimums_scale (c : ℚ) (xs : List Account) :
    fillMinimums (scaleAccounts c xs) = scaleAccounts c (fillMinimums xs) := by
  unfold fillMinimums scaleAccounts
  rw [List.map_map, List.map_map]
  refine List.map_congr_left fun a _ => ?_
  show (if shortfallOf (scaleAccount c a) > 0 then
      { scaleAccount c a with balance := (scaleAccount c a).minThreshold } else
        scaleAccount c a) =
    scaleAccount c (if shortfallOf a > 0 then { a with balance := a.minThreshold } else a)
  rw [show shortfallOf (scaleAccount c a) = shortfallOf a from rfl]
  split_ifs <;> rfl

theorem totalCapacity_scale (c : ℚ) (xs : List Account) :
    totalCapacity (scaleAccounts c xs) = totalCapacity xs := by
  unfold totalCapacity scaleAccounts
  rw [List.map_map]
  rfl

theorem distributeInitial_scale (c : ℚ) (xs : List Account) (f : ℚ) :
    distributeInitial (scaleAccounts c xs) f = scaleAccounts c (distributeInitial xs f) := by
  unfold distributeInitial
  dsimp only
  rw [totalShortfall_scale, fillMinimums_scale, totalCapacity_scale]
  split_ifs with h1 h2 h3
  · unfold scaleAccounts
    rw [List.map_map, List.map_map]
    refine List.map_congr_left fun a _ => ?_
    dsimp only [Function.comp]
    rw [show shortfallOf (scaleAccount c a) = shortfallOf a from rfl]
    split_ifs <;> rfl
  · rfl
  · rfl
  · unfold scaleAccounts
    rw [List.map_map, List.map_map]
    refine List.map_congr_left fun a _ => ?_
    dsimp only [Function.comp]
    rw [show capacityOf (scaleAccount c a) = capacityOf a from rfl]
    split_ifs <;> rfl

theorem clampToMax_scale (c : ℚ) (a : Account) :
    clampToMax (scaleAccount c a) = scaleAccount c (clampToMax a) := by
  unfold clampToMax
  rw [show (scaleAccount c a).balance - (scaleAccount c a).maxThreshold =
    a.balance - a.maxThreshold from rfl]
  split_ifs <;> rfl

theorem map_clamp_scale (c : ℚ) (xs : List Account) :
    (scaleAccounts c xs).map clampToMax = scaleAccounts c (xs.map clampToMax) := by
  unfold scaleAccounts
  rw [List.map_map, List.map_map]
  exact List.map_congr_left fun a _ => clampToMax_scale c a

theorem overflowEntries_scale (c : ℚ) (xs : List Account) :
    overflowEntries (scaleAccounts c xs) = overflowEntries xs := by
  unfold overflowEntries scaleAccounts
  rw [List.filterMap_map]
  rfl

theorem balancesOf_scale (c : ℚ) (xs : List Account) :
    balancesOf (scaleAccounts c xs) = balancesOf xs := by
  unfold balancesOf scaleAccounts
  rw [List.map_map]
  rfl

theorem findAccount_scale (c : ℚ) (xs : List Account) (id : String) :
    findAccount (scaleAccounts c xs) id = (findAccount xs id).map (scaleAccount c) := by
  unfold findAccount scaleAccounts
  rw [List.find?_map]
  rfl

theorem addToBalance_scale (c : ℚ) (xs : List Account) (t : String) (amt : ℚ) :
    addToBalance (scaleAccounts c xs) t amt = scaleAccounts c (addToBalance xs t amt) := by
  unfold addToBalance scaleAccounts
  rw [List.map_map, List.map_map]
  refine List.map_congr_left fun a _ => ?_
  show (if (scaleAccount c a).id = t then
      { scaleAccount c a with balance := (scaleAccount c a).balance + amt }
    else scaleAccount c a) =
    scaleAccount c (if a.id = t then { a with balance := a.balance + amt } else a)
  rw [show (scaleAccount c a).id = a.id from rfl]
  split_ifs <;> rfl

theorem distributeToTargets_scale (c : ℚ) (hc : c ≠ 0) (s : String) (o W : ℚ) :
    ∀ (allocs : List (String × ℚ)) (xs : List Account) (fl : List (String × ℚ)),
      distributeToTargets s o (c * W) (allocs.map (fun p => (p.1, c * p.2)))
          (scaleAccounts c xs, fl) =
        (scaleAccounts c (distributeToTargets s o W allocs (xs, fl)).1,
         (distributeToTargets s o W allocs (xs, fl)).2) := by
  intro allocs
  induction allocs with
  | nil => intro xs fl; rfl
  | cons p rest ih =>
    intro xs fl
    rw [List.map_cons, distributeToTargets_cons, distributeToTargets_cons]
    rw [findAccount_scale]
    dsimp only
    rw [show (c * p.2) / (c * W) = p.2 / W from mul_div_mul_left p.2 W hc]
    by_cases hf : (findAccount xs p.1).isSome
    · rw [if_pos (by simpa using hf), if_pos hf]
      rw [addToBalance_scale]
      exact ih (addToBalance xs p.1 (o * (p.2 / W))) (fl ++ [(s ++ "->" ++ p.1, o * (p.2 / W))])
    · rw [if_neg (by simpa using hf), if_neg hf]
      exact ih xs fl

end FlowFunding

namespace FlowFunding

theorem redistributeStep_scale (c : ℚ) (hc : c ≠ 0) (xs : List Account)
    (fl : List (String × ℚ)) (q : String × ℚ) :
    redistributeStep (scaleAccounts c xs, fl) q =
      (scaleAccounts c (redistributeStep (xs, fl) q).1, (redistributeStep (xs, fl) q).2) := by
  unfold redistributeStep
  dsimp only
  rw [findAccount_scale]
  cases h : findAccount xs q.1 with
  | none => rfl
  | some source =>
    dsimp only [Option.map_some']
    rw [weightSum_scale]
    by_cases hW : weightSum source = 0
    · rw [if_pos (by rw [hW, mul_zero]), if_pos hW]
    · rw [if_neg (fun hcc => hW (by
        rcases mul_eq_zero.mp hcc with h0 | h0
        · exact absurd h0 hc
        · exact h0)), if_neg hW]
      rw [show (scaleAccount c source).allocations =
        source.allocations.map (fun p => (p.1, c * p.2)) from rfl]
      exact distributeToTargets_scale c hc q.1 q.2 (weightSum source)
        source.allocations xs fl

theorem redistribute_foldl_scale (c : ℚ) (hc : c ≠ 0) (ofl : List (String × ℚ)) :
    ∀ (xs : List Account) (fl : List (String × ℚ)),
      ofl.foldl redistributeStep (scaleAccounts c xs, fl) =
        (scaleAccounts c (ofl.foldl redistributeStep (xs, fl)).1,
         (ofl.foldl redistributeStep (xs, fl)).2) := by
  induction ofl with
  | nil => intro xs fl; rfl
  | cons q rest ih =>
    intro xs fl
    rw [List.foldl_cons, List.foldl_cons, redistributeStep_scale c hc]
    have := ih (redistributeStep (xs, fl) q).1 (redistributeStep (xs, fl) q).2
    rw [this]

theorem redistributeOverflow_scale (c : ℚ) (hc : c ≠ 0) (xs : List Account)
    (ofl : List (String × ℚ)) :
    redistributeOverflow (scaleAccounts c xs) ofl =
      (scaleAccounts c (redistributeOverflow xs ofl).1, (redistributeOverflow xs ofl).2) := by
  unfold redistributeOverflow
  exact redistribute_foldl_scale c hc ofl xs []

theorem runLoop_scale (c : ℚ) (hc : c ≠ 0) (eps : ℚ) :
    ∀ (fuel i : ℕ) (xs : List Account),
      runLoop eps fuel i (scaleAccounts c xs) =
        (scaleAccounts c (runLoop eps fuel i xs).1,
         (runLoop eps fuel i xs).2.1, (runLoop eps fuel i xs).2.2) := by
  intro fuel
  induction fuel with
  | zero => intro i xs; rfl
  | succ f ih =>
    intro i xs
    unfold runLoop
    dsimp only [calculateOverflow]
    rw [map_clamp_scale, overflowEntries_scale, balancesOf_scale]
    split_ifs with hcv
    · rfl
    · rw [redistributeOverflow_scale c hc]
      dsimp only
      rw [ih (i + 1) (redistributeOverflow (xs.map clampToMax) (overflowEntries xs)).1]

theorem runDistribution_scale (c : ℚ) (hc : 0 < c)
    (accounts : List Account) (funding eps : ℚ) (maxIter : ℕ)
    (hv : (validateNetwork accounts).valid = true)
    (hvs : (validateNetwork (scaleAccounts c accounts)).valid = true) :
    (runDistribution (scaleAccounts c accounts) funding maxIter eps).map Prod.fst =
      (runDistribution accounts funding maxIter eps).map Prod.fst := by
  unfold runDistribution
  dsimp only
  rw [if_pos hvs, if_pos hv]
  rw [balancesOf_scale, distributeInitial_scale, runLoop_scale c (ne_of_gt hc) eps]
  dsimp only [Except.map]
  rw [balancesOf_scale]

end FlowFunding

namespace FlowV2

theorem weightSum_scale_v2 (c : ℚ) (n : FlowNode) :
    weightSum (scaleNode c n) = c * weightSum n := by
  unfold weightSum scaleNode
  dsimp only
  rw [List.map_map]
  rw [show ((fun p : String × ℚ => p.2) ∘ fun p : String × ℚ => (p.1, c * p.2)) =
    (fun p : String × ℚ => c * p.2) from rfl]
  exact List.sum_map_mul_left n.allocations (fun p => p.2) c

theorem calculateOutflow_scale (c : ℚ) (n : FlowNode) :
    calculateOutflow (scaleNode c n) = calculateOutflow n := rfl

theorem newInflow_scale (c : ℚ) (hc : 0 < c) (nodes : List FlowNode) (n : FlowNode) :
    newInflow (scaleNodes c nodes) (scaleNode c n) = newInflow nodes n := by
  unfold newInflow scaleNodes
  dsimp only
  rw [List.map_map]
  congr 1
  refine congrArg List.sum (List.map_congr_left fun s _ => ?_)
  dsimp only [Function.comp]
  rw [weightSum_scale_v2]
  rw [show (scaleNode c s).totalOutflow = s.totalOutflow from rfl]
  have hiff : (0 < c * weightSum s) ↔ (0 < weightSum s) := by
    constructor
    · intro h
      by_contra hn
      have : c * weightSum s ≤ 0 :=
        mul_nonpos_of_nonneg_of_nonpos hc.le (not_lt.mp hn)
      linarith
    · intro h
      exact mul_pos hc h
  by_cases hcond : s.totalOutflow.getD 0 > 0 ∧ 0 < weightSum s
  · rw [if_pos ⟨hcond.1, hiff.mpr hcond.2⟩, if_pos hcond]
    rw [show (scaleNode c s).allocations =
      s.allocations.map (fun p => (p.1, c * p.2)) from rfl]
    rw [show (scaleNode c n).id = n.id from rfl]
    rw [List.filter_map]
    rw [show ((fun p : String × ℚ => decide (p.1 = n.id)) ∘
      fun p : String × ℚ => (p.1, c * p.2)) =
      (fun p : String × ℚ => decide (p.1 = n.id)) from rfl]
    rw [List.map_map]
    rw [show ((fun p : String × ℚ => p.2) ∘ fun p : String × ℚ => (p.1, c * p.2)) =
      (fun p : String × ℚ => c * p.2) from rfl]
    rw [List.sum_map_mul_left]
    rw [show s.totalOutflow.getD 0 * (c *
        ((s.allocations.filter (fun p => decide (p.1 = n.id))).map
          (fun p : String × ℚ => p.2)).sum) =
      c * (s.totalOutflow.getD 0 *
        ((s.allocations.filter (fun p => decide (p.1 = n.id))).map
          (fun p : String × ℚ => p.2)).sum) from by ring]
    rw [mul_div_mul_left _ _ (ne_of_gt hc)]
  · rw [if_neg (fun hcc => hcond ⟨hcc.1, hiff.mp hcc.2⟩), if_neg hcond]

theorem map_scale_comm (c : ℚ) (f g : FlowNode → FlowNode)
    (h : ∀ n, f (scaleNode c n) = scaleNode c (g n)) (xs : List FlowNode) :
    (scaleNodes c xs).map f = scaleNodes c (xs.map g) := by
  unfold scaleNodes
  rw [List.map_map, List.map_map]
  exact List.map_congr_left fun n _ => h n

theorem map_scale_eq (c : ℚ) {α : Type} (f : FlowNode → α) (g : FlowNode → α)
    (h : ∀ n, f (scaleNode c n) = g n) (xs : List FlowNode) :
    (scaleNodes c xs).map f = xs.map g := by
  unfold scaleNodes
  rw [List.map_map]
  exact List.map_congr_left fun n _ => h n

theorem steadyStep_scale (c : ℚ) (hc : 0 < c) (nodes : List FlowNode) :
    steadyStep (scaleNodes c nodes) =
      (scaleNodes c (steadyStep nodes).1, (steadyStep nodes).2) := by
  unfold steadyStep
  dsimp only
  have hwo : (scaleNodes c nodes).map
        (fun n => { n with totalOutflow := some (calculateOutflow n) }) =
      scaleNodes c (nodes.map (fun n => { n with totalOutflow := some (calculateOutflow n) })) := by
    unfold scaleNodes
    rw [List.map_map, List.map_map]
    refine List.map_congr_left fun n _ => ?_
    dsimp only [Function.comp]
    rw [calculateOutflow_scale]
    rfl
  rw [hwo]
  refine Prod.ext ?_ ?_
  · dsimp only
    refine map_scale_comm c _ _ (fun n => ?_) _
    dsimp only
    rw [newInflow_scale c hc]
    rfl
  · dsimp only
    congr 1
    refine map_scale_eq c _ _ (fun n => ?_) _
    dsimp only
    rw [newInflow_scale c hc]
    rw [show (scaleNode c n).totalInflow = n.totalInflow from rfl]

theorem steadyLoop_scale (c : ℚ) (hc : 0 < c) (eps : ℚ) :
    ∀ (fuel iters : ℕ) (nodes : List FlowNode),
      steadyLoop eps fuel iters (scaleNodes c nodes) =
        (scaleNodes c (steadyLoop eps fuel iters nodes).1,
         (steadyLoop eps fuel iters nodes).2.1, (steadyLoop eps fuel iters nodes).2.2) := by
  intro fuel
  induction fuel with
  | zero => intro iters nodes; rfl
  | succ f ih =>
    intro iters nodes
    unfold steadyLoop
    dsimp only
    rw [steadyStep_scale c hc]
    dsimp only
    split_ifs with hcv
    · rfl
    · exact ih (iters + 1) (steadyStep nodes).1

theorem edges_inner_scale (c : ℚ) (hc : c ≠ 0) (srcId : String) (outflow W : ℚ) :
    ∀ allocs : List (String × ℚ),
      (((allocs.map (fun p => (p.1, c * p.2))).filterMap (fun p =>
        if outflow * (p.2 / (c * W)) > 0 then
          some { source := srcId, target := p.1, flowRate := outflow * (p.2 / (c * W)),
                 percentage := p.2 }
        else none)).map (fun e : FlowEdge => (e.source, e.target, e.flowRate))) =
      ((allocs.filterMap (fun p =>
        if outflow * (p.2 / W) > 0 then
          some { source := srcId, target := p.1, flowRate := outflow * (p.2 / W),
                 percentage := p.2 }
        else none)).map (fun e : FlowEdge => (e.source, e.target, e.flowRate))) := by
  intro allocs
  induction allocs with
  | nil => rfl
  | cons p rest ih =>
    rw [List.map_cons, List.filterMap_cons, List.filterMap_cons]
    dsimp only
    rw [show (c * p.2) / (c * W) = p.2 / W from mul_div_mul_left p.2 W hc]
    split_ifs with h
    · simp only [List.map_cons]
      rw [ih]
    · exact ih

theorem computeEdges_scale (c : ℚ) (hc : 0 < c) (xs : List FlowNode) :
    (computeEdges (scaleNodes c xs)).map (fun e => (e.source, e.target, e.flowRate)) =
      (computeEdges xs).map (fun e => (e.source, e.target, e.flowRate)) := by
  unfold computeEdges scaleNodes
  rw [List.map_map, List.map_flatten, List.map_flatten, List.map_map, List.map_map]
  congr 1
  refine List.map_congr_left fun s _ => ?_
  dsimp only [Function.comp]
  rw [weightSum_scale_v2]
  have hiff : (0 < c * weightSum s) ↔ (0 < weightSum s) := by
    constructor
    · intro h
      by_contra hn
      have : c * weightSum s ≤ 0 :=
        mul_nonpos_of_nonneg_of_nonpos hc.le (not_lt.mp hn)
      linarith
    · intro h
      exact mul_pos hc h
  rw [show (scaleNode c s).totalOutflow = s.totalOutflow from rfl]
  rw [show (scaleNode c s).id = s.id from rfl]
  by_cases ho : s.totalOutflow.getD 0 > 0
  · rw [if_pos ho, if_pos ho]
    by_cases hW : 0 < weightSum s
    · rw [if_pos (hiff.mpr hW), if_pos hW]
      rw [show (scaleNode c s).allocations =
        s.allocations.map (fun p => (p.1, c * p.2)) from rfl]
      exact edges_inner_scale c (ne_of_gt hc) s.id (s.totalOutflow.getD 0)
        (weightSum s) s.allocations
    · rw [if_neg (fun hcc => hW (hiff.mp hcc)), if_neg hW]
  · rw [if_neg ho, if_neg ho]

theorem calculateSteadyState_scale (c : ℚ) (hc : 0 < c)
    (nodes : List FlowNode) (maxIter : ℕ) (eps : ℚ)
    (hv : (validateNetwork nodes).valid = true)
    (hvs : (validateNetwork (scaleNodes c nodes)).valid = true) :
    (calculateSteadyState (scaleNodes c nodes) maxIter eps).map (fun net =>
        (net.nodes.map (fun n => (n.id, n.totalInflow, n.totalOutflow)),
         net.edges.map (fun e => (e.source, e.target, e.flowRate)),
         net.converged, net.iterations)) =
      (calculateSteadyState nodes maxIter eps).map (fun net =>
        (net.nodes.map (fun n => (n.id, n.totalInflow, n.totalOutflow)),
         net.edges.map (fun e => (e.source, e.target, e.flowRate)),
         net.converged, net.iterations)) := by
  unfold calculateSteadyState
  dsimp only
  rw [if_pos hvs, if_pos hv]
  have hinit : (scaleNodes c nodes).map (fun n =>
      { n with totalInflow := some n.externalInflow, totalOutflow := some 0,
               balance := some 0 }) =
    scaleNodes c (nodes.map (fun n =>
      { n with totalInflow := some n.externalInflow, totalOutflow := some 0,
               balance := some 0 })) := by
    unfold scaleNodes
    rw [List.map_map, List.map_map]
    exact List.map_congr_left fun n _ => rfl
  rw [hinit, steadyLoop_scale c hc]
  dsimp only [Except.map]
  congr 1
  refine Prod.ext ?_ (Prod.ext ?_ rfl)
  · dsimp only
    unfold scaleNodes
    rw [List.map_map]
    exact List.map_congr_left fun n _ => rfl
  · dsimp only
    exact computeEdges_scale c hc _

end FlowV2

/-- A valid two-account network with mutual full-weight allocations; its
doubling is rejected by the validator. -/
def FlowFunding.c7Valid : List FlowFunding.Account :=
  [{ id := "P", name := "P", balance := 0, minThreshold := 0, maxThreshold := 10,
     allocations := [("Q", 100)] },
   { id := "Q", name := "Q", balance := 0, minThreshold := 0, maxThreshold := 10,
     allocations := [("P", 100)] }]

/-- A valid two-account network with mutual half-weight allocations, which
stays valid when its weights are halved. -/
def FlowFunding.c7WAccounts : List FlowFunding.Account :=
  [{ id := "P", name := "P", balance := 0, minThreshold := 0, maxThreshold := 10,
     allocations := [("Q", 50)] },
   { id := "Q", name := "Q", balance := 0, minThreshold := 0, maxThreshold := 10,
     allocations := [("P", 50)] }]

/-- A valid two-node continuous network with half-weight allocations, which
stays valid when its weights are halved. -/
def FlowV2.c7WNodes : List FlowV2.FlowNode :=
  [{ id := "X", name := "X", externalInflow := 20, minThreshold := 0, maxThreshold := 10,
     allocations := [("Y", 50)], totalInflow := none, totalOutflow := none, balance := none },
   { id := "Y", name := "Y", externalInflow := 0, minThreshold := 0, maxThreshold := 10,
     allocations := [("X", 50)], totalInflow := none, totalOutflow := none, balance := none }]

/-- C7 (amended): normalization invariance holds only as long as the scaled
network still passes validation.  For every positive constant c, every pair
of networks that are valid both before and after multiplying all outgoing
allocation weights by c, the discrete engine returns an identical
DistributionResult (initial and final balances, every recorded round with
its balances, overflows and per-edge flow amounts, convergence and
iteration count), and the continuous engine returns the same per-node
inflow/outflow fixed point, the same per-edge flow rates, and the same
convergence flag and iteration count. -/
theorem normalization_invariance (c : ℚ) (hc : 0 < c)
    (accounts : List FlowFunding.Account) (funding : ℚ) (maxIter : ℕ) (eps : ℚ)
    (nodes : List FlowV2.FlowNode) (maxIterV2 : ℕ) (epsV2 : ℚ)
    (hv : (FlowFunding.validateNetwork accounts).valid = true)
    (hvs : (FlowFunding.validateNetwork
      (FlowFunding.scaleAccounts c accounts)).valid = true)
    (hv2 : (FlowV2.validateNetwork nodes).valid = true)
    (hvs2 : (FlowV2.validateNetwork (FlowV2.scaleNodes c nodes)).valid = true) :
    (FlowFunding.runDistribution (FlowFunding.scaleAccounts c accounts)
        funding maxIter eps).map Prod.fst =
      (FlowFunding.runDistribution accounts funding maxIter eps).map Prod.fst ∧
    (FlowV2.calculateSteadyState (FlowV2.scaleNodes c nodes) maxIterV2 epsV2).map
        (fun net => (net.nodes.map (fun n => (n.id, n.totalInflow, n.totalOutflow)),
          net.edges.map (fun e => (e.source, e.target, e.flowRate)),
          net.converged, net.iterations)) =
      (FlowV2.calculateSteadyState nodes maxIterV2 epsV2).map
        (fun net => (net.nodes.map (fun n => (n.id, n.totalInflow, n.totalOutflow)),
          net.edges.map (fun e => (e.source, e.target, e.flowRate)),
          net.converged, net.iterations)) :=
  ⟨FlowFunding.runDistribution_scale c hc accounts funding eps maxIter hv hvs,
   FlowV2.calculateSteadyState_scale c hc nodes maxIterV2 epsV2 hv2 hvs2⟩

/-- C7 counterexample to the unamended claim: a valid network with mutual
100 percent allocations and the positive constant 2.  The original network
runs to a result, but the doubled network fails validation (each 200
weight is out of range and each weight sum exceeds the tolerance), so the
scaled run returns the error list instead of the same results. -/
theorem normalization_invariance_counterexample :
    (0 : ℚ) < 2 ∧
    (FlowFunding.validateNetwork FlowFunding.c7Valid).valid = true ∧
    (FlowFunding.runDistribution FlowFunding.c7Valid 5 3 (1 / 100)).isOk = true ∧
    FlowFunding.runDistribution (FlowFunding.scaleAccounts 2 FlowFunding.c7Valid)
        5 3 (1 / 100) =
      .error [.allocationOutOfRange "P" "Q", .allocationSumExceeded "P",
              .allocationOutOfRange "Q" "P", .allocationSumExceeded "Q"] := by
  refine ⟨by with_unfolding_all decide, by with_unfolding_all decide,
    by with_unfolding_all decide, ?_⟩
  with_unfolding_all rfl

/-- C7 witness: the amended theorem applied at the constant one half to a
concrete discrete network and a concrete continuous network, both of which
stay valid after scaling. -/
theorem normalization_invariance_witness :
    (0 : ℚ) < 1 / 2 ∧
    (FlowFunding.validateNetwork FlowFunding.c7WAccounts).valid = true ∧
    (FlowFunding.validateNetwork
      (FlowFunding.scaleAccounts (1 / 2) FlowFunding.c7WAccounts)).valid = true ∧
    (FlowV2.validateNetwork FlowV2.c7WNodes).valid = true ∧
    (FlowV2.validateNetwork (FlowV2.scaleNodes (1 / 2) FlowV2.c7WNodes)).valid = true ∧
    ((FlowFunding.runDistribution (FlowFunding.scaleAccounts (1 / 2) FlowFunding.c7WAccounts)
        5 10 (1 / 100)).map Prod.fst =
      (FlowFunding.runDistribution FlowFunding.c7WAccounts 5 10 (1 / 100)).map Prod.fst ∧
     (FlowV2.calculateSteadyState (FlowV2.scaleNodes (1 / 2) FlowV2.c7WNodes) 10 (1 / 100)).map
        (fun net => (net.nodes.map (fun n => (n.id, n.totalInflow, n.totalOutflow)),
          net.edges.map (fun e => (e.source, e.target, e.flowRate)),
          net.converged, net.iterations)) =
      (FlowV2.calculateSteadyState FlowV2.c7WNodes 10 (1 / 100)).map
        (fun net => (net.nodes.map (fun n => (n.id, n.totalInflow, n.totalOutflow)),
          net.edges.map (fun e => (e.source, e.target, e.flowRate)),
          net.converged, net.iterations))) :=
  ⟨by with_unfolding_all decide, by with_unfolding_all decide, by with_unfolding_all decide,
   by with_unfolding_all decide, by with_unfolding_all decide,
   normalization_invariance (1 / 2) (by with_unfolding_all decide)
     FlowFunding.c7WAccounts 5 10 (1 / 100) FlowV2.c7WNodes 10 (1 / 100)
     (by with_unfolding_all decide) (by with_unfolding_all decide)
     (by with_unfolding_all decide) (by with_unfolding_all decide)⟩
